import Mathlib

set_option maxHeartbeats 1000000
set_option autoImplicit false

/- Verification development for the build-xlsx request handler
   (src/api/build-xlsx.js, both file variants).  JS strings are modelled
   as lists of characters and JS numbers as exact rationals. -/

abbrev Str := List Char

def sl (s : String) : Str := s.data

/-- The JS whitespace class, restricted to the characters that can occur in
    this code base's data (ASCII whitespace, NBSP, thin space, BOM). -/
def jsWhitespace (c : Char) : Bool :=
  c = ' ' || c = '\t' || c = '\n' || c = '\r' || c = '\x0b' || c = '\x0c' ||
  c = '\u00A0' || c = '\u2009' || c = '\uFEFF'

/-- Model of String.prototype.trim. -/
def jsTrim (l : Str) : Str :=
  ((l.dropWhile jsWhitespace).reverse.dropWhile jsWhitespace).reverse

def isDigitC (c : Char) : Bool := '0' ≤ c && c ≤ '9'

def digitVal (c : Char) : ℕ := c.toNat - '0'.toNat

def natOfDigits (l : Str) : ℕ := l.foldl (fun a c => 10 * a + digitVal c) 0

/-- Model of s.includes(c) for a single character. -/
def hasChar (c : Char) (l : Str) : Bool := l.any (fun x => x = c)

/-- Model of s.replace(/c/g, "") — remove every occurrence of a character. -/
def removeAll (c : Char) (l : Str) : Str := l.filter (fun x => x ≠ c)

/-- Model of s.replace(a, b) for single characters — replace the first occurrence. -/
def replaceFirst (a b : Char) : Str → Str
  | [] => []
  | x :: xs => if x = a then b :: xs else x :: replaceFirst a b xs

/-- Model of s.lastIndexOf(c): -1 when absent. -/
def lastIdx (c : Char) : Str → Int
  | [] => -1
  | x :: xs =>
    let r := lastIdx c xs
    if r ≥ 0 then r + 1 else if x = c then 0 else -1

/-- Model of s.split(c) for a single-character separator. -/
def splitOnChar (c : Char) : Str → List Str
  | [] => [[]]
  | x :: xs =>
    if x = c then [] :: splitOnChar c xs
    else
      match splitOnChar c xs with
      | [] => [[x]]
      | y :: ys => (x :: y) :: ys

/-- Value of a plain decimal literal (digits with at most one dot),
    or none when the characters do not form such a literal. -/
def decLiteralVal (l : Str) : Option ℚ :=
  match splitOnChar '.' l with
  | [a] => if a ≠ [] && a.all isDigitC then some (natOfDigits a) else none
  | [a, b] =>
    if (a ≠ [] || b ≠ []) && a.all isDigitC && b.all isDigitC then
      some ((natOfDigits a : ℚ) + (natOfDigits b : ℚ) / 10 ^ b.length)
    else none
  | _ => none

/-- Model of the JS host conversion Number(s) on the string shapes that reach
    it in this code: the empty string (value 0), and optionally signed decimal
    literals.  Exponent, hexadecimal and Infinity literal forms never arise
    from the call sites modelled here and are mapped to none (NaN), as is any
    other non-numeric text.  NaN and non-finite results are none; finite
    values are exact rationals (double rounding is not modelled — the claims
    under study concern exact decimal values). -/
def jsNumber (l : Str) : Option ℚ :=
  match l with
  | [] => some 0
  | c :: rest =>
    if c = '-' then (if rest = [] then none else (decLiteralVal rest).map (fun q => -q))
    else if c = '+' then (if rest = [] then none else decLiteralVal rest)
    else decLiteralVal (c :: rest)

/-- Match data of the regex suffix (\.\d{3})*(,\d+)?$ — the dot groups and
    the optional comma tail. -/
def dgTail : Str → Option (List Str × Option Str)
  | [] => some ([], none)
  | '.' :: c1 :: c2 :: c3 :: rest =>
    if isDigitC c1 && isDigitC c2 && isDigitC c3 then
      (dgTail rest).map (fun p => ([c1, c2, c3] :: p.1, p.2))
    else none
  | ',' :: rest => if rest ≠ [] && rest.all isDigitC then some ([], some rest) else none
  | _ => none

/-- Matcher for /^\d{1,3}(\.\d{3})*(,\d+)?$/ returning the match groups
    (leading digits, dot groups, optional comma tail). -/
def dgParse : Str → Option (Str × List Str × Option Str)
  | c1 :: rest =>
    if isDigitC c1 then
      match rest with
      | c2 :: rest2 =>
        if isDigitC c2 then
          match rest2 with
          | c3 :: rest3 =>
            if isDigitC c3 then (dgTail rest3).map (fun p => ([c1, c2, c3], p.1, p.2))
            else (dgTail rest2).map (fun p => ([c1, c2], p.1, p.2))
          | [] => some ([c1, c2], [], none)
        else (dgTail rest).map (fun p => ([c1], p.1, p.2))
      | [] => some ([c1], [], none)
    else none
  | [] => none

/-- Model of /^\d{1,3}(\.\d{3})*(,\d+)?$/.test. -/
def regexDotGroups (l : Str) : Bool := (dgParse l).isSome

/-- Match data of the regex suffix (,\d{3})*(\.\d+)?$. -/
def cgTail : Str → Option (List Str × Option Str)
  | [] => some ([], none)
  | ',' :: c1 :: c2 :: c3 :: rest =>
    if isDigitC c1 && isDigitC c2 && isDigitC c3 then
      (cgTail rest).map (fun p => ([c1, c2, c3] :: p.1, p.2))
    else none
  | '.' :: rest => if rest ≠ [] && rest.all isDigitC then some ([], some rest) else none
  | _ => none

/-- Matcher for /^\d{1,3}(,\d{3})+(\.\d+)?$/ (at least one comma group). -/
def cgParse : Str → Option (Str × List Str × Option Str)
  | c1 :: rest =>
    if isDigitC c1 then
      match rest with
      | c2 :: rest2 =>
        if isDigitC c2 then
          match rest2 with
          | c3 :: rest3 =>
            if isDigitC c3 then
              match cgTail rest3 with
              | some (g :: gs, dec) => some ([c1, c2, c3], g :: gs, dec)
              | _ => none
            else
              match cgTail rest2 with
              | some (g :: gs, dec) => some ([c1, c2], g :: gs, dec)
              | _ => none
          | [] => none
        else
          match cgTail rest with
          | some (g :: gs, dec) => some ([c1], g :: gs, dec)
          | _ => none
      | [] => none
    else none
  | [] => none

/-- Model of /^\d{1,3}(,\d{3})+(\.\d+)?$/.test. -/
def regexCommaGroups (l : Str) : Bool := (cgParse l).isSome

/-- Model of /^\d+,\d+$/.test. -/
def regexIntComma (l : Str) : Bool :=
  match splitOnChar ',' l with
  | [a, b] => a ≠ [] && b ≠ [] && a.all isDigitC && b.all isDigitC
  | _ => false

/-- toNumberMaybe from variant 1 of src/api/build-xlsx.js (string input path:
    the null/undefined and numeric input short-circuits of the source do not
    arise for cell text and are not modelled). -/
def tnmBody (s1 : Str) : Option ℚ :=
  let s2 :=
    if regexDotGroups s1 then replaceFirst ',' '.' (removeAll '.' s1)
    else if regexIntComma s1 then replaceFirst ',' '.' s1
    else s1
  let s3 := if regexCommaGroups s2 then removeAll ',' s2 else s2
  jsNumber s3

def toNumberMaybe (v : Str) : Option ℚ :=
  let s0 := jsTrim v
  if s0 = [] then none
  else tnmBody (s0.filter (fun c => !jsWhitespace c))

structure ParsedNumber where
  num : ℚ
  fmt : String
  decimals : ℕ
  groupingUsed : Bool
deriving Repr, DecidableEq

def decFmt (d : ℕ) : String :=
  if d > 0 then "0." ++ String.mk (List.replicate d '0') else "0"

def decFmtGrouped (d : ℕ) : String :=
  if d > 0 then "#,##0." ++ String.mk (List.replicate d '0') else "#,##0"

/-- The branch chain of parseNumberAndFormat after whitespace/semicolon
    normalization (hadSemi records whether any ';' was stripped). -/
def pnfBody (hadSemi : Bool) (s : Str) : Option ParsedNumber :=
  let hasDot := hasChar '.' s
  let hasComma := hasChar ',' s
  if hasDot && hasComma then
    let lastDot := lastIdx '.' s
    let lastComma := lastIdx ',' s
    if lastComma > lastDot then
      let noDots := removeAll '.' s
      let canonical := replaceFirst ',' '.' noDots
      match jsNumber canonical with
      | none => none
      | some num =>
        let tail := s.drop (lastComma + 1).toNat
        let decimals := if tail ≠ [] && tail.all isDigitC then tail.length else 0
        some ⟨num, decFmtGrouped decimals, decimals, true⟩
    else
      let noCommas := removeAll ',' s
      match jsNumber noCommas with
      | none => none
      | some num =>
        let tail := s.drop (lastDot + 1).toNat
        let decimals := if tail ≠ [] && tail.all isDigitC then tail.length else 0
        some ⟨num, decFmtGrouped decimals, decimals, true⟩
  else if hasComma then
    let parts := splitOnChar ',' s
    let tail := parts.getD 1 []
    if parts.length = 2 && (tail ≠ [] && tail.length ≤ 3 && tail.all isDigitC) then
      match jsNumber (parts.getD 0 [] ++ '.' :: tail) with
      | none => none
      | some num =>
        some ⟨num, if hadSemi then decFmtGrouped tail.length else decFmt tail.length,
              tail.length, hadSemi⟩
    else
      match jsNumber (removeAll ',' s) with
      | none => none
      | some num => some ⟨num, decFmtGrouped 0, 0, true⟩
  else if hasDot then
    let parts := splitOnChar '.' s
    let tail := parts.getD 1 []
    if parts.length = 2 && (tail ≠ [] && tail.length ≤ 3 && tail.all isDigitC) then
      match jsNumber s with
      | none => none
      | some num =>
        some ⟨num, if hadSemi then decFmtGrouped tail.length else decFmt tail.length,
              tail.length, hadSemi⟩
    else
      match jsNumber (removeAll '.' s) with
      | none => none
      | some num => some ⟨num, decFmtGrouped 0, 0, true⟩
  else
    match jsNumber s with
    | none => none
    | some num => some ⟨num, if hadSemi then decFmtGrouped 0 else "0", 0, hadSemi⟩

/-- parseNumberAndFormat from variant 2 of src/api/build-xlsx.js. -/
def parseNumberAndFormat (rawText : Str) : Option ParsedNumber :=
  let s0 := jsTrim rawText
  if s0 = [] then none
  else
    let s1 := s0.filter (fun c => !(c = '\u00A0' || c = '\u2009'))
    let hadSemi := hasChar ';' s1
    pnfBody hadSemi (if hadSemi then removeAll ';' s1 else s1)

/- -------------------- Column typing configuration -------------------- -/

def MONEY_HEADERS : List String :=
  ["I alt, kr", "Saltning, kr", "Kombi, kr", "Snerydning, kr", "Andet, kr",
   "Pris inkl. moms", "Pris ex. moms"]

def AVG_PRICE_HEADERS : List String :=
  ["Salt, gns. pris", "Kombi, gns. pris", "Sne, gns. pris", "Andet, gns. pris"]

def COUNT_HEADERS : List String :=
  ["Salt, antal", "Kombi, antal", "Sne, antal", "Andet, antal", "Salt, kg"]

def DET_BASE_HEADERS : List String :=
  ["Øko-ID", "Vintercentral", "Område", "Distrikt", "Rute/lokation", "Lokationsnavn",
   "Evt. id", "Lokationsadresse", "Lokationspostnr", "I alt, kr", "Saltning, kr",
   "Salt, antal", "Salt, gns. pris", "Kombi, kr", "Kombi, antal", "Kombi, gns. pris",
   "Snerydning, kr", "Sne, antal", "Sne, gns. pris", "Andet, kr", "Andet, antal",
   "Andet, gns. pris", "Salt, kg"]

def SAP_HEADERS : List String :=
  ["Kontrakt", "Position", "Artskonto", "Besrkivelse", "Profitcenter",
   "Pris inkl. moms", "Momskode", "Pris ex. moms", "Lokation/rute", "Kunde"]

/-- Day-column test /^\d{1,2}$/ applied to a (trimmed) header. -/
def isDayHeader (h : Str) : Bool := h ≠ [] && h.length ≤ 2 && h.all isDigitC

/-- detDays (both variants): the dynamically appended day columns,
    detParsed.headers.map(trim).filter(/^\d{1,2}$/). -/
def detDays (headers : List Str) : List Str := (headers.map jsTrim).filter isDayHeader

/-- DET_HEADERS (both variants): fixed base columns plus the observed day columns. -/
def DET_HEADERS_of (headers : List Str) : List Str :=
  DET_BASE_HEADERS.map sl ++ detDays headers

/- -------------------- Per-column format statistics (variant 2) -------------------- -/

structure ColStats where
  maxDec : ℕ
  anyGroup : Bool
deriving Repr, DecidableEq

/-- One row's update of detDecimalsByHeader / detGroupingByHeader for a column. -/
def stepStats (st : ColStats) (raw : Str) : ColStats :=
  match parseNumberAndFormat raw with
  | some p => ⟨max st.maxDec p.decimals, st.anyGroup || p.groupingUsed⟩
  | none => st

/-- The per-column statistics after the whole data pass (variant 2). -/
def colStats (raws : List Str) : ColStats := raws.foldl stepStats ⟨0, false⟩

/-- applyTotalFmt (variant 2, detail totals row): the number format put on a
    summed column's total cell, from the column statistics. -/
def applyTotalFmt (hdr : String) (st : ColStats) : String :=
  if st.anyGroup || MONEY_HEADERS.contains hdr then
    (if st.maxDec > 0 then "#,##0." ++ String.mk (List.replicate st.maxDec '0') else "#,##0")
  else
    (if st.maxDec > 0 then "0." ++ String.mk (List.replicate st.maxDec '0') else "0")

/- -------------------- Data cells (variant 2 detail sheet) -------------------- -/

inductive CellVal
  | num (q : ℚ)
  | text (s : Str)
  | empty
deriving Repr, DecidableEq

/-- Money / average-price data cell of the variant-2 detail sheet:
    the written value and the number format applied to the cell.
    (The source's raw === null case is modelled by the empty string, which the
    source treats identically at this point.) -/
def detV2MoneyCell (raw : Str) : CellVal × Option String :=
  match parseNumberAndFormat raw with
  | some p => (CellVal.num p.num, some p.fmt)
  | none => (if raw = [] then CellVal.empty else CellVal.text raw, none)

/-- Count-column data cell of the variant-2 detail sheet. -/
def detV2CountCell (raw : Str) : CellVal × Option String :=
  match parseNumberAndFormat raw with
  | some p =>
    (CellVal.num p.num,
     some (if p.groupingUsed then
             (if p.decimals > 0 then "#,##0." ++ String.mk (List.replicate p.decimals '0')
              else "#,##0")
           else
             (if p.decimals > 0 then "0." ++ String.mk (List.replicate p.decimals '0')
              else "0")))
  | none => (if raw = [] then CellVal.empty else CellVal.text raw, none)

/- -------------------- Spec-side column format (for claim C1) -------------------- -/

/-- Spec-side definition (from the spec's words, for comparison): the maximum
    decimal count observed across a column's successfully parsed values. -/
def specMaxDecimals (raws : List Str) : ℕ :=
  (raws.filterMap (fun r => (parseNumberAndFormat r).map (fun p => p.decimals))).foldr max 0

/-- Spec-side definition: grouping observed in at least one row of the column. -/
def specAnyGrouping (raws : List Str) : Bool :=
  (raws.filterMap (fun r => (parseNumberAndFormat r).map (fun p => p.groupingUsed))).any id

/- -------------------- Variant 1: J..P columns as formatted text -------------------- -/

/-- Substring test (model of /pat/.test(s) for a literal pattern). -/
def startsWithS : Str → Str → Bool
  | [], _ => true
  | _ :: _, [] => false
  | p :: ps, x :: xs => p = x && startsWithS ps xs

def containsSub (pat : Str) : Str → Bool
  | [] => startsWithS pat []
  | x :: xs => startsWithS pat (x :: xs) || containsSub pat xs

/-- Model of toLowerCase on the characters occurring in this code base's
    headers (ASCII letters plus the Danish letters used in the labels). -/
def jsLower (c : Char) : Char :=
  if 'A' ≤ c && c ≤ 'Z' then Char.ofNat (c.toNat + 32)
  else if c = 'Ø' then 'ø' else if c = 'Å' then 'å' else if c = 'Æ' then 'æ' else c

def lowerStr (s : Str) : Str := s.map jsLower

/-- decimalsForHeader (variant 1): 0 for count/weight columns, 3 otherwise. -/
def decimalsForHeader (hdr : String) : ℕ :=
  if containsSub (sl "antal") (lowerStr (sl hdr)) || containsSub (sl "kg") (lowerStr (sl hdr))
  then 0 else 3

/-- Rounding used by Number.prototype.toFixed, modelled as round half away
    from zero on the exact rational (double-representation artifacts are not
    modelled; no claim under study depends on a rounding boundary). -/
def jsToFixedInt (q : ℚ) (d : ℕ) : ℤ :=
  if q < 0 then -⌊(-q) * 10 ^ d + 1 / 2⌋ else ⌊q * 10 ^ d + 1 / 2⌋

def natDigits (n : ℕ) : Str := Nat.toDigits 10 n

/-- Left-pad with zeros to d digits (fraction part of toFixed). -/
def natDigitsPad (d : ℕ) (n : ℕ) : Str :=
  let ds := natDigits n
  List.replicate (d - ds.length) '0' ++ ds

/-- The semicolon-grouping loop of formatWithSemicolons: insert ';' before
    every group of three digits, counted from the right (input and output
    reversed). -/
def groupRev : Str → Str
  | a :: b :: c :: d :: rest => a :: b :: c :: ';' :: groupRev (d :: rest)
  | l => l

/-- formatWithSemicolons (variant 1): fixed-point text with ';' as thousands
    separator and '.' as decimal separator. -/
def formatWithSemicolons (num : ℚ) (decimals : ℕ) : Str :=
  let m := jsToFixedInt num decimals
  let sgn : Str := if m < 0 then ['-'] else []
  let nn := m.natAbs
  let intPart := natDigits (nn / 10 ^ decimals)
  let fracPart := if decimals = 0 then [] else natDigitsPad decimals (nn % 10 ^ decimals)
  let grouped := (groupRev intPart.reverse).reverse
  if fracPart = [] then sgn ++ grouped else sgn ++ grouped ++ '.' :: fracPart

/-- Variant-1 detail sheet, visible J..P cell: the visible cell value (formatted
    text, or an empty cell when the token does not resolve) and the value put in
    the hidden numeric helper column.  In the source, coerceByHeader applies
    toNumberMaybe for these headers and the second toNumberMaybe application to
    the already-coerced number is the identity. -/
def detV1JPCell (hdr : String) (raw : Str) : CellVal × Option ℚ :=
  match toNumberMaybe raw with
  | some n => (CellVal.text (formatWithSemicolons n (decimalsForHeader hdr)), some n)
  | none => (CellVal.empty, none)

/-- Variant-1 running total of a J..P column: only rows whose token resolved
    to a finite number are added. -/
def runningTotal (raws : List Str) : ℚ :=
  raws.foldl (fun acc raw =>
    match toNumberMaybe raw with
    | some n => acc + n
    | none => acc) 0

/- -------------------- Row normalizer -------------------- -/

abbrev Record := List (Str × Str)

def natStr (n : ℕ) : Str := Nat.toDigits 10 n

/-- Synthetic positional label col_{c+1} for a missing header label. -/
def colKey (c : ℕ) : Str := sl "col_" ++ natStr c

/-- Zip header labels with cell values positionally (the loop body of
    parseCsvFlexible's data building). -/
def buildRecord (headers : List Str) (arr : List Str) : Record :=
  headers.enum.map (fun p => (if p.2 = [] then colKey (p.1 + 1) else p.2, arr.getD p.1 []))

/-- Model of obj[k] ?? "" on the built record: later assignments overwrite
    earlier ones, a missing key gives the empty string. -/
def objGetD (obj : Record) (k : Str) : Str :=
  (obj.foldl (fun acc p => if p.1 = k then some p.2 else acc) none).getD []

/-- isNoiseRow (both variants): fully empty row, or first cell starting with
    the trailing-annotation sentinel. -/
def isNoiseRow (arr : List Str) : Bool :=
  let first := lowerStr (jsTrim (arr.getD 0 []))
  let allEmpty := arr.all (fun v => jsTrim v = [])
  if allEmpty then true
  else if startsWithS (sl "udtrukket") first then true
  else false

/-- Variant-1 data building loop: keep every non-noise row after the header. -/
def dataRows1 (headers : List Str) : List (List Str) → List Record
  | [] => []
  | arr :: rest =>
    if isNoiseRow arr then dataRows1 headers rest
    else buildRecord headers arr :: dataRows1 headers rest

structure ParseOpts where
  identityKeys : List Str
  valueKeys : List Str
  dayKeys : List Str

/-- The identity/value/day keep condition of variant 2's data building loop. -/
def keep2 (opts : ParseOpts) (headers : List Str) (arr : List Str) : Bool :=
  let obj := buildRecord headers arr
  let nonEmptyCount := (arr.filter (fun v => jsTrim v ≠ [])).length
  let firstNonEmpty := jsTrim (arr.getD 0 []) ≠ []
  let hasIdentity := opts.identityKeys.any (fun k => jsTrim (objGetD obj k) ≠ [])
  let hasValues := opts.valueKeys.any (fun k => jsTrim (objGetD obj k) ≠ [])
  let hasDays := opts.dayKeys.any (fun k => jsTrim (objGetD obj k) ≠ [])
  hasIdentity || hasValues || hasDays || (firstNonEmpty && nonEmptyCount == 1)

/-- Variant-2 data building loop: non-noise rows that also pass the
    identity/value/day filter. -/
def dataRows2 (opts : ParseOpts) (headers : List Str) : List (List Str) → List Record
  | [] => []
  | arr :: rest =>
    if isNoiseRow arr then dataRows2 opts headers rest
    else if keep2 opts headers arr then buildRecord headers arr :: dataRows2 opts headers rest
    else dataRows2 opts headers rest

def detDaysAll : List Str := (List.range 31).map (fun i => natStr (i + 1))

/-- The options variant 2 passes for the detail document. -/
def detOpts : ParseOpts :=
  { identityKeys := [sl "Øko-ID", sl "Rute/lokation", sl "Lokationsnavn"],
    valueKeys :=
      [sl "I alt, kr", sl "Saltning, kr", sl "Salt, antal", sl "Salt, gns. pris",
       sl "Kombi, kr", sl "Kombi, antal", sl "Kombi, gns. pris",
       sl "Snerydning, kr", sl "Sne, antal", sl "Sne, gns. pris",
       sl "Andet, kr", sl "Andet, antal", sl "Salt, kg"],
    dayKeys := detDaysAll }

/-- The options variant 2 passes for the SAP document. -/
def sapOpts : ParseOpts :=
  { identityKeys := [sl "Kontrakt", sl "Lokation/rute", sl "Kunde"],
    valueKeys := [sl "Pris inkl. moms", sl "Pris ex. moms"],
    dayKeys := [] }

/- -------------------- Tabular shape detection -------------------- -/

/-- norm (both variants): trim then lowercase. -/
def normS (s : Str) : Str := lowerStr (jsTrim s)

/-- stripComma (both variants): norm then remove commas. -/
def stripCommaS (s : Str) : Str := removeAll ',' (normS s)

/-- One expected label's contribution test inside findHeaderIndex. -/
def cellMatches (h v : Str) : Bool :=
  normS v = normS h || stripCommaS v = stripCommaS h

/-- The match score of one row: how many expected labels some cell equals
    under case/punctuation-insensitive comparison. -/
def rowScore (expect : List Str) (r : List Str) : ℕ :=
  expect.foldl
    (fun acc h => acc + (if (r.map jsTrim).any (fun v => cellMatches h v) then 1 else 0)) 0

/-- findHeaderIndex (both variants): best-scoring row among the first 12,
    first row wins ties; (-1, -1) when there are no rows. -/
def findHeaderIndex (rows : List (List Str)) (expect : List Str) : Int × Int :=
  (List.range (min rows.length 12)).foldl
    (fun best i =>
      let score : Int := rowScore expect (rows.getD i [])
      if score > best.2 then ((i : Int), score) else best)
    (-1, -1)

/-- Modelled from the spec: PapaParse (an external dependency, not part of this
    repository) splits rawText into rows without dropping empty rows — rows on
    line breaks, cells on the candidate delimiter; quoted fields are not
    modelled (no claim under study depends on quoting). -/
def splitRows (raw : Str) (d : Char) : List (List Str) :=
  (splitOnChar '\n' (removeAll '\r' raw)).map (splitOnChar d)

/-- parseWithDelimiter: rows for one candidate delimiter plus the header scan
    over the first 12 rows. -/
def parseWithDelimiter (raw : Str) (d : Char) (expect : List Str) :
    List (List Str) × Int × Int :=
  let rows := splitRows raw d
  let p := findHeaderIndex (rows.take 12) expect
  (rows, p.1, p.2)

/-- Strip a leading byte-order mark: (text || "").replace(/^BOM/, ""). -/
def stripBOM : Str → Str
  | '\uFEFF' :: rest => rest
  | l => l

structure BestAttempt where
  rows : List (List Str)
  headerIdx : Int
  score : Int
  delim : Char
deriving Repr

def delimCandidates : List Char := [';', ',', '\t']

/-- The delimiter-selection loop of parseCsvFlexible: try ';', ',', '\t' in
    order and keep the strictly best-scoring attempt. -/
def chooseDelimiter (raw : Str) (expect : List Str) : BestAttempt :=
  delimCandidates.foldl
    (fun best d =>
      let a := parseWithDelimiter (stripBOM raw) d expect
      if a.2.2 > best.score then ⟨a.1, a.2.1, a.2.2, d⟩ else best)
    ⟨[], -1, -1, ';'⟩

/-- The header row index after the fallback-to-0 step of parseCsvFlexible. -/
def headerIdxOf (raw : Str) (expect : List Str) : ℕ :=
  let b := chooseDelimiter raw expect
  if b.headerIdx ≥ 0 then b.headerIdx.toNat else 0

/-- Convenience: the score one candidate delimiter attains on a document. -/
def delimScore (raw : Str) (expect : List Str) (d : Char) : Int :=
  (parseWithDelimiter (stripBOM raw) d expect).2.2

/- -------------------- readCsvText -------------------- -/

structure FetchRes where
  ok : Bool
  status : ℕ
  text : Str

def fetchErrMsg (u : Str) (status : ℕ) : Str :=
  sl "Failed to fetch CSV: " ++ u ++ sl " (status " ++ natStr status ++ sl ")"

def readCsvTextUrl (url : Option Str) (fetchF : Str → FetchRes) : Except Str Str :=
  match url with
  | none => Except.ok []
  | some u =>
    if u = [] then Except.ok []
    else
      let r := fetchF u
      if r.ok then Except.ok r.text else Except.error (fetchErrMsg u r.status)

/-- readCsvText (both variants).  csv is the inline payload when a string was
    supplied (none models absent or non-string); url analogously; fetchF models
    the network as a pure oracle from url to response.  A falsy (empty) csv
    string falls through to the url branch exactly as in the source. -/
def readCsvText (csv url : Option Str) (fetchF : Str → FetchRes) : Except Str Str :=
  match csv with
  | some c => if c ≠ [] then Except.ok c else readCsvTextUrl url fetchF
  | none => readCsvTextUrl url fetchF

/- -------------------- Layout emission targets -------------------- -/

/-- A written (or merged/bordered/formatted) worksheet cell address. -/
abbrev CellRef := ℕ × ℕ

def TITLE_ROW_INDEX : ℕ := 1
def SUBTITLE_ROW_INDEX : ℕ := 2
def HEADER_ROW_INDEX : ℕ := 4

/-- The cell addresses touched in one row between two columns. -/
def rowSpan (r c1 c2 : ℕ) : List CellRef :=
  (List.range' c1 (c2 + 1 - c1)).map (fun c => (r, c))

/-- setTitle: value plus a merge across row 1; nothing when the text is empty. -/
def setTitleWrites (text : Str) (totalCols : ℕ) : List CellRef :=
  if text = [] then [] else rowSpan TITLE_ROW_INDEX 1 totalCols

/-- setSubtitle: value plus a merge across row 2; nothing when the text is empty. -/
def setSubtitleWrites (text : Str) (totalCols : ℕ) : List CellRef :=
  if text = [] then [] else rowSpan SUBTITLE_ROW_INDEX 1 totalCols

/-- writeHeader: the header labels on row 4. -/
def writeHeaderWrites (nLabels : ℕ) : List CellRef :=
  rowSpan HEADER_ROW_INDEX 1 nLabels

/-- The data loop: row 5 onwards, one row per kept record. -/
def dataWrites (n nCols : ℕ) : List CellRef :=
  ((List.range n).map (fun k => rowSpan (HEADER_ROW_INDEX + 1 + k) 1 nCols)).flatten

/-- addBorders over a rectangle. -/
def addBordersWrites (r1 r2 c1 c2 : ℕ) : List CellRef :=
  ((List.range' r1 (r2 + 1 - r1)).map (fun r => rowSpan r c1 c2)).flatten

/-- writeFooter: the footer line two rows below afterRow, merged c1..c2. -/
def writeFooterWrites (c1 c2 afterRow : ℕ) : List CellRef :=
  rowSpan (afterRow + 2) c1 c2

/-- writeSumFormulas (variant 2): formula cells plus a border across the
    totals row up to the largest summed column. -/
def writeSumFormulasWrites (totalRow : ℕ) (cols : List ℕ) : List CellRef :=
  cols.map (fun c => (totalRow, c)) ++ rowSpan totalRow 1 (cols.foldr max 0)

/-- The SAP sheet's cell writes, variant 1 (title, header, data, borders,
    the single numeric total formula, footer).  n is the number of kept
    records of the SAP document; cell contents do not influence which
    addresses are touched. -/
def sapWrites1 (title : Str) (n : ℕ) : List CellRef :=
  setTitleWrites title 10 ++ writeHeaderWrites 10 ++ dataWrites n 10 ++
  (if 1 ≤ n then
     addBordersWrites (HEADER_ROW_INDEX + 1) (HEADER_ROW_INDEX + n) 1 10 ++
     [(HEADER_ROW_INDEX + n + 1, 8)] ++
     writeFooterWrites 1 3 (HEADER_ROW_INDEX + n + 1)
   else writeFooterWrites 1 3 HEADER_ROW_INDEX)

/-- The SAP sheet's cell writes, variant 2. -/
def sapWrites2 (title : Str) (n : ℕ) : List CellRef :=
  setTitleWrites title 10 ++ writeHeaderWrites 10 ++ dataWrites n 10 ++
  (if 1 ≤ n then
     addBordersWrites (HEADER_ROW_INDEX + 1) (HEADER_ROW_INDEX + n) 1 10 ++
     writeSumFormulasWrites (HEADER_ROW_INDEX + n + 1) [8] ++
     [(HEADER_ROW_INDEX + n + 1, 8)] ++
     writeFooterWrites 1 3 (HEADER_ROW_INDEX + n + 1)
   else writeFooterWrites 1 3 HEADER_ROW_INDEX)

/-- The detail sheet's cell writes, variant 2 — the only sheet for which
    setSubtitle is invoked.  nCols is DET_HEADERS.length, n the number of kept
    detail records; 10..13 are the summed columns J..M of the totals row. -/
def detWrites2 (title subtitle : Str) (nCols n : ℕ) : List CellRef :=
  setTitleWrites title nCols ++ setSubtitleWrites subtitle nCols ++
  writeHeaderWrites nCols ++ dataWrites n nCols ++
  (if 1 ≤ n then
     addBordersWrites (HEADER_ROW_INDEX + 1) (HEADER_ROW_INDEX + n) 1 nCols ++
     writeSumFormulasWrites (HEADER_ROW_INDEX + n + 1) [10, 11, 12, 13] ++
     (([10, 11, 12, 13] : List ℕ).map (fun c => (HEADER_ROW_INDEX + n + 1, c))) ++
     writeFooterWrites 1 3 (HEADER_ROW_INDEX + n + 1)
   else writeFooterWrites 1 3 HEADER_ROW_INDEX)

/- -------------------- Basic lemmas about the string primitives -------------------- -/

theorem isDigitC_ne_dot {c : Char} (h : isDigitC c = true) : c ≠ '.' := by
  intro he; subst he; exact absurd h (by decide)

theorem isDigitC_ne_comma {c : Char} (h : isDigitC c = true) : c ≠ ',' := by
  intro he; subst he; exact absurd h (by decide)

theorem isDigitC_ne_semi {c : Char} (h : isDigitC c = true) : c ≠ ';' := by
  intro he; subst he; exact absurd h (by decide)

theorem isDigitC_ne_minus {c : Char} (h : isDigitC c = true) : c ≠ '-' := by
  intro he; subst he; exact absurd h (by decide)

theorem isDigitC_ne_plus {c : Char} (h : isDigitC c = true) : c ≠ '+' := by
  intro he; subst he; exact absurd h (by decide)

/-- Digits, dots and commas are not JS whitespace. -/
theorem not_ws_of_tok {c : Char} (h : isDigitC c = true ∨ c = '.' ∨ c = ',') :
    jsWhitespace c = false := by
  rcases h with h | h | h
  · by_contra hw
    simp only [Bool.not_eq_false, jsWhitespace, Bool.or_eq_true, decide_eq_true_eq] at hw
    rcases hw with ((((((((h1 | h1) | h1) | h1) | h1) | h1) | h1) | h1) | h1) <;>
      (subst h1; exact absurd h (by decide))
  · subst h; decide
  · subst h; decide

/-- Digits, dots and commas are not the NBSP / thin-space characters. -/
theorem not_nbsp_of_tok {c : Char} (h : isDigitC c = true ∨ c = '.' ∨ c = ',') :
    (c = ' ' || c = ' ') = false := by
  rcases h with h | h | h
  · by_contra hw
    simp only [Bool.not_eq_false, Bool.or_eq_true, decide_eq_true_eq] at hw
    rcases hw with h1 | h1 <;> (subst h1; exact absurd h (by decide))
  · subst h; decide
  · subst h; decide

theorem dropWhile_eq_self_of_all {p : Char → Bool} {l : Str}
    (h : ∀ c ∈ l, p c = false) : l.dropWhile p = l := by
  cases l with
  | nil => rfl
  | cons x xs => simp [List.dropWhile_cons, h x (by simp)]

theorem jsTrim_eq_self {l : Str} (h : ∀ c ∈ l, jsWhitespace c = false) : jsTrim l = l := by
  unfold jsTrim
  rw [dropWhile_eq_self_of_all h, dropWhile_eq_self_of_all, List.reverse_reverse]
  intro c hc
  exact h c (List.mem_reverse.mp hc)

theorem filter_eq_self_of_all {p : Char → Bool} {l : Str}
    (h : ∀ c ∈ l, p c = true) : l.filter p = l :=
  List.filter_eq_self.mpr h

@[simp] theorem hasChar_nil (c : Char) : hasChar c [] = false := rfl

@[simp] theorem hasChar_cons (c x : Char) (xs : Str) :
    hasChar c (x :: xs) = (decide (x = c) || hasChar c xs) := by
  simp [hasChar]

@[simp] theorem hasChar_append (c : Char) (xs ys : Str) :
    hasChar c (xs ++ ys) = (hasChar c xs || hasChar c ys) := by
  simp [hasChar]

theorem hasChar_false {c : Char} {l : Str} (h : ∀ x ∈ l, x ≠ c) : hasChar c l = false := by
  induction l with
  | nil => rfl
  | cons x xs ih =>
    simp only [hasChar_cons, Bool.or_eq_false_iff, decide_eq_false_iff_not]
    exact ⟨h x (by simp), ih (fun y hy => h y (by simp [hy]))⟩

theorem hasChar_iff_mem {c : Char} {l : Str} : hasChar c l = true ↔ c ∈ l := by
  simp [hasChar, List.any_eq_true]

@[simp] theorem removeAll_nil (c : Char) : removeAll c [] = [] := rfl

theorem removeAll_cons (c x : Char) (xs : Str) :
    removeAll c (x :: xs) = if x = c then removeAll c xs else x :: removeAll c xs := by
  by_cases h : x = c <;> simp [removeAll, List.filter_cons, h]

@[simp] theorem removeAll_cons_self (c : Char) (xs : Str) :
    removeAll c (c :: xs) = removeAll c xs := by
  simp [removeAll_cons]

theorem removeAll_append (c : Char) (xs ys : Str) :
    removeAll c (xs ++ ys) = removeAll c xs ++ removeAll c ys := by
  simp [removeAll, List.filter_append]

theorem removeAll_eq_self {c : Char} {l : Str} (h : ∀ x ∈ l, x ≠ c) :
    removeAll c l = l := by
  apply filter_eq_self_of_all
  intro x hx
  simpa using h x hx

@[simp] theorem replaceFirst_nil (a b : Char) : replaceFirst a b [] = [] := rfl

theorem replaceFirst_cons (a b x : Char) (xs : Str) :
    replaceFirst a b (x :: xs) =
      if x = a then b :: xs else x :: replaceFirst a b xs := rfl

theorem replaceFirst_eq_self {a b : Char} {l : Str} (h : ∀ x ∈ l, x ≠ a) :
    replaceFirst a b l = l := by
  induction l with
  | nil => rfl
  | cons x xs ih =>
    rw [replaceFirst_cons, if_neg (h x (by simp))]
    rw [ih (fun y hy => h y (by simp [hy]))]

theorem replaceFirst_append_of_none {a b : Char} {xs : Str} (ys : Str)
    (h : ∀ x ∈ xs, x ≠ a) :
    replaceFirst a b (xs ++ ys) = xs ++ replaceFirst a b ys := by
  induction xs with
  | nil => rfl
  | cons x xs ih =>
    simp only [List.cons_append, replaceFirst_cons, if_neg (h x (by simp))]
    rw [ih (fun y hy => h y (by simp [hy]))]

theorem lastIdx_nil (c : Char) : lastIdx c [] = -1 := rfl

theorem lastIdx_cons (c x : Char) (xs : Str) :
    lastIdx c (x :: xs) =
      (if lastIdx c xs ≥ 0 then lastIdx c xs + 1 else if x = c then 0 else -1) := rfl

theorem lastIdx_of_not_has {c : Char} {l : Str} (h : hasChar c l = false) :
    lastIdx c l = -1 := by
  induction l with
  | nil => rfl
  | cons x xs ih =>
    simp only [hasChar_cons, Bool.or_eq_false_iff, decide_eq_false_iff_not] at h
    rw [lastIdx_cons, ih h.2, if_neg (by omega), if_neg h.1]

theorem lastIdx_nonneg_of_has {c : Char} {l : Str} (h : hasChar c l = true) :
    0 ≤ lastIdx c l := by
  induction l with
  | nil => simp at h
  | cons x xs ih =>
    rw [lastIdx_cons]
    by_cases hx : lastIdx c xs ≥ 0
    · rw [if_pos hx]; omega
    · rw [if_neg hx]
      simp only [hasChar_cons, Bool.or_eq_true, decide_eq_true_eq] at h
      rcases h with h | h
      · rw [if_pos h]
      · exact absurd (ih h) hx

theorem lastIdx_lt_length (c : Char) (l : Str) : lastIdx c l < l.length := by
  induction l with
  | nil => simp [lastIdx_nil]
  | cons x xs ih =>
    rw [lastIdx_cons]
    by_cases hx : lastIdx c xs ≥ 0
    · rw [if_pos hx]; simp only [List.length_cons]; omega
    · rw [if_neg hx]
      by_cases he : x = c
      · rw [if_pos he]; simp only [List.length_cons]; omega
      · rw [if_neg he]; simp only [List.length_cons]; omega

theorem lastIdx_append_of_has {c : Char} {ys : Str} (xs : Str) (h : hasChar c ys = true) :
    lastIdx c (xs ++ ys) = xs.length + lastIdx c ys := by
  induction xs with
  | nil => simp
  | cons x xs ih =>
    have hys : 0 ≤ lastIdx c ys := lastIdx_nonneg_of_has h
    simp only [List.cons_append, lastIdx_cons, ih]
    rw [if_pos (by omega)]
    simp only [List.length_cons]
    omega

theorem lastIdx_append_of_not_has {c : Char} {ys : Str} (xs : Str)
    (h : hasChar c ys = false) :
    lastIdx c (xs ++ ys) = lastIdx c xs := by
  induction xs with
  | nil => simp [lastIdx_of_not_has h, lastIdx_nil]
  | cons x xs ih => simp only [List.cons_append, lastIdx_cons, ih]

theorem splitOnChar_ne_nil (c : Char) (l : Str) : splitOnChar c l ≠ [] := by
  cases l with
  | nil => simp [splitOnChar]
  | cons x xs =>
    rw [splitOnChar]
    by_cases h : x = c
    · simp [h]
    · rw [if_neg h]
      cases splitOnChar c xs <;> simp

theorem splitOnChar_of_not_has {c : Char} {l : Str} (h : ∀ x ∈ l, x ≠ c) :
    splitOnChar c l = [l] := by
  induction l with
  | nil => rfl
  | cons x xs ih =>
    rw [splitOnChar, if_neg (h x (by simp)), ih (fun y hy => h y (by simp [hy]))]

theorem splitOnChar_append_cons {c : Char} {xs : Str} (ys : Str) (h : ∀ x ∈ xs, x ≠ c) :
    splitOnChar c (xs ++ c :: ys) = xs :: splitOnChar c ys := by
  induction xs with
  | nil => simp [splitOnChar]
  | cons x xs ih =>
    simp only [List.cons_append]
    rw [splitOnChar, if_neg (h x (by simp)), ih (fun y hy => h y (by simp [hy]))]

theorem drop_append_len {α : Type} (xs ys : List α) (k : ℕ) :
    (xs ++ ys).drop (xs.length + k) = ys.drop k := by
  induction xs with
  | nil => simp
  | cons x xs ih => simp [Nat.succ_add, ih]

theorem natOfDigits_acc (l : Str) (a : ℕ) :
    l.foldl (fun x c => 10 * x + digitVal c) a = a * 10 ^ l.length + natOfDigits l := by
  induction l generalizing a with
  | nil => simp [natOfDigits]
  | cons x xs ih =>
    simp only [natOfDigits, List.foldl_cons, List.length_cons]
    rw [ih (10 * a + digitVal x), ih (10 * 0 + digitVal x)]
    ring

theorem natOfDigits_append (xs ys : Str) :
    natOfDigits (xs ++ ys) = natOfDigits xs * 10 ^ ys.length + natOfDigits ys := by
  simp only [natOfDigits, List.foldl_append]
  rw [natOfDigits_acc]
  rfl

theorem all_eq_true_of_forall {p : Char → Bool} {l : Str} (h : ∀ x ∈ l, p x = true) :
    l.all p = true := List.all_eq_true.mpr h

theorem decLiteralVal_digits {l : Str} (hne : l ≠ []) (hd : ∀ x ∈ l, isDigitC x = true) :
    decLiteralVal l = some ((natOfDigits l : ℚ)) := by
  unfold decLiteralVal
  rw [splitOnChar_of_not_has (fun x hx => isDigitC_ne_dot (hd x hx))]
  show (if (decide (l ≠ []) && l.all isDigitC) = true then some ((natOfDigits l : ℚ)) else none) =
    some ((natOfDigits l : ℚ))
  rw [if_pos]
  simp only [Bool.and_eq_true, decide_eq_true_eq, ne_eq]
  exact ⟨by simpa using hne, all_eq_true_of_forall hd⟩

theorem decLiteralVal_dot {a b : Str} (ha : ∀ x ∈ a, isDigitC x = true)
    (hb : ∀ x ∈ b, isDigitC x = true) (hne : a ≠ [] ∨ b ≠ []) :
    decLiteralVal (a ++ '.' :: b) =
      some ((natOfDigits a : ℚ) + (natOfDigits b : ℚ) / 10 ^ b.length) := by
  unfold decLiteralVal
  rw [splitOnChar_append_cons _ (fun x hx => isDigitC_ne_dot (ha x hx))]
  rw [splitOnChar_of_not_has (fun x hx => isDigitC_ne_dot (hb x hx))]
  show (if ((decide (a ≠ []) || decide (b ≠ [])) && a.all isDigitC && b.all isDigitC) = true
        then some ((natOfDigits a : ℚ) + (natOfDigits b : ℚ) / 10 ^ b.length) else none) =
    some ((natOfDigits a : ℚ) + (natOfDigits b : ℚ) / 10 ^ b.length)
  rw [if_pos]
  simp only [Bool.and_eq_true, Bool.or_eq_true, decide_eq_true_eq, ne_eq]
  refine ⟨⟨?_, all_eq_true_of_forall ha⟩, all_eq_true_of_forall hb⟩
  rcases hne with h | h
  · left; simpa using h
  · right; simpa using h

theorem jsNumber_eq_decLit {l : Str} (hne : l ≠ [])
    (hd : ∀ x ∈ l, isDigitC x = true ∨ x = '.') :
    jsNumber l = decLiteralVal l := by
  cases l with
  | nil => exact absurd rfl hne
  | cons x xs =>
    have hx := hd x (by simp)
    have h1 : x ≠ '-' := by
      rcases hx with h | h
      · exact isDigitC_ne_minus h
      · subst h; decide
    have h2 : x ≠ '+' := by
      rcases hx with h | h
      · exact isDigitC_ne_plus h
      · subst h; decide
    simp [jsNumber, h1, h2]

theorem jsNumber_digits {l : Str} (hne : l ≠ []) (hd : ∀ x ∈ l, isDigitC x = true) :
    jsNumber l = some (natOfDigits l) := by
  rw [jsNumber_eq_decLit hne (fun x hx => Or.inl (hd x hx))]
  exact decLiteralVal_digits hne hd

theorem jsNumber_dot {a b : Str} (ha : ∀ x ∈ a, isDigitC x = true)
    (hb : ∀ x ∈ b, isDigitC x = true) (hne : a ≠ [] ∨ b ≠ []) :
    jsNumber (a ++ '.' :: b) =
      some ((natOfDigits a : ℚ) + (natOfDigits b : ℚ) / 10 ^ b.length) := by
  rw [jsNumber_eq_decLit (by simp) ?_]
  · exact decLiteralVal_dot ha hb hne
  · intro x hx
    rcases List.mem_append.mp hx with h | h
    · exact Or.inl (ha x h)
    · rcases List.mem_cons.mp h with h | h
      · exact Or.inr h
      · exact Or.inl (hb x h)

/- -------------------- Structure of regex-matching tokens -------------------- -/

/-- The textual form of the optional decimal tail of a dot-grouped token. -/
def decSuffix : Option Str → Str
  | none => []
  | some d => ',' :: d

/-- The textual form of the optional decimal tail of a comma-grouped token. -/
def dotSuffix : Option Str → Str
  | none => []
  | some d => '.' :: d

def dotGroupsStr (gs : List Str) : Str := (gs.map (fun g => '.' :: g)).flatten

def commaGroupsStr (gs : List Str) : Str := (gs.map (fun g => ',' :: g)).flatten

def wfGroups (gs : List Str) : Prop :=
  ∀ g ∈ gs, g.length = 3 ∧ ∀ x ∈ g, isDigitC x = true

def wfDec (dec : Option Str) : Prop :=
  ∀ d, dec = some d → d ≠ [] ∧ ∀ x ∈ d, isDigitC x = true

/-- The numeric value a separator-grouped token denotes once the grouping
    separators are deleted and the decimal tail is read as a fraction. -/
def sepTokVal (a : Str) (gs : List Str) (dec : Option Str) : ℚ :=
  match dec with
  | none => (natOfDigits (a ++ gs.flatten) : ℚ)
  | some d => (natOfDigits (a ++ gs.flatten) : ℚ) + (natOfDigits d : ℚ) / 10 ^ d.length

theorem dgTail_sound {r : Str} {gs : List Str} {dec : Option Str}
    (h : dgTail r = some (gs, dec)) :
    r = dotGroupsStr gs ++ decSuffix dec ∧ wfGroups gs ∧ wfDec dec := by
  induction r using dgTail.induct generalizing gs dec with
  | case1 =>
    simp only [dgTail, Option.some.injEq, Prod.mk.injEq] at h
    obtain ⟨rfl, rfl⟩ := h
    exact ⟨rfl, fun g hg => absurd hg (by simp), fun d hd => by simp at hd⟩
  | case2 c1 c2 c3 rest hdig ih =>
    simp only [dgTail, if_pos hdig, Option.map_eq_some'] at h
    obtain ⟨⟨gs', dec'⟩, hp, he⟩ := h
    rw [Prod.mk.injEq] at he
    obtain ⟨rfl, rfl⟩ := he
    obtain ⟨hr, hwg, hwd⟩ := ih hp
    subst hr
    simp only [Bool.and_eq_true] at hdig
    refine ⟨by simp [dotGroupsStr], ?_, hwd⟩
    intro g hg
    rcases List.mem_cons.mp hg with hg | hg
    · subst hg
      refine ⟨rfl, ?_⟩
      intro x hx
      rcases List.mem_cons.mp hx with hx | hx
      · subst hx; exact hdig.1.1
      rcases List.mem_cons.mp hx with hx | hx
      · subst hx; exact hdig.1.2
      rcases List.mem_cons.mp hx with hx | hx
      · subst hx; exact hdig.2
      · simp at hx
    · exact hwg g hg
  | case3 c1 c2 c3 rest hdig =>
    rw [dgTail, if_neg hdig] at h
    exact absurd h (by simp)
  | case4 rest hc =>
    rw [dgTail, if_pos hc] at h
    simp only [Option.some.injEq, Prod.mk.injEq] at h
    obtain ⟨rfl, rfl⟩ := h
    simp only [Bool.and_eq_true, decide_eq_true_eq] at hc
    refine ⟨rfl, fun g hg => absurd hg (by simp), ?_⟩
    intro d hd
    simp only [Option.some.injEq] at hd
    subst hd
    exact ⟨hc.1, fun x hx => List.all_eq_true.mp hc.2 x hx⟩
  | case5 rest hc =>
    rw [dgTail, if_neg hc] at h
    exact absurd h (by simp)
  | case6 t h1 h2 h3 =>
    rw [dgTail.eq_def] at h
    split at h
    · exact (h1 rfl).elim
    · exact (h2 _ _ _ _ rfl).elim
    · exact (h3 _ rfl).elim
    · exact absurd h (by simp)

theorem cgTail_sound {r : Str} {gs : List Str} {dec : Option Str}
    (h : cgTail r = some (gs, dec)) :
    r = commaGroupsStr gs ++ dotSuffix dec ∧ wfGroups gs ∧ wfDec dec := by
  induction r using cgTail.induct generalizing gs dec with
  | case1 =>
    simp only [cgTail, Option.some.injEq, Prod.mk.injEq] at h
    obtain ⟨rfl, rfl⟩ := h
    exact ⟨rfl, fun g hg => absurd hg (by simp), fun d hd => by simp at hd⟩
  | case2 c1 c2 c3 rest hdig ih =>
    simp only [cgTail, if_pos hdig, Option.map_eq_some'] at h
    obtain ⟨⟨gs', dec'⟩, hp, he⟩ := h
    rw [Prod.mk.injEq] at he
    obtain ⟨rfl, rfl⟩ := he
    obtain ⟨hr, hwg, hwd⟩ := ih hp
    subst hr
    simp only [Bool.and_eq_true] at hdig
    refine ⟨by simp [commaGroupsStr], ?_, hwd⟩
    intro g hg
    rcases List.mem_cons.mp hg with hg | hg
    · subst hg
      refine ⟨rfl, ?_⟩
      intro x hx
      rcases List.mem_cons.mp hx with hx | hx
      · subst hx; exact hdig.1.1
      rcases List.mem_cons.mp hx with hx | hx
      · subst hx; exact hdig.1.2
      rcases List.mem_cons.mp hx with hx | hx
      · subst hx; exact hdig.2
      · simp at hx
    · exact hwg g hg
  | case3 c1 c2 c3 rest hdig =>
    rw [cgTail, if_neg hdig] at h
    exact absurd h (by simp)
  | case4 rest hc =>
    rw [cgTail, if_pos hc] at h
    simp only [Option.some.injEq, Prod.mk.injEq] at h
    obtain ⟨rfl, rfl⟩ := h
    simp only [Bool.and_eq_true, decide_eq_true_eq] at hc
    refine ⟨rfl, fun g hg => absurd hg (by simp), ?_⟩
    intro d hd
    simp only [Option.some.injEq] at hd
    subst hd
    exact ⟨hc.1, fun x hx => List.all_eq_true.mp hc.2 x hx⟩
  | case5 rest hc =>
    rw [cgTail, if_neg hc] at h
    exact absurd h (by simp)
  | case6 t h1 h2 h3 =>
    rw [cgTail.eq_def] at h
    split at h
    · exact (h1 rfl).elim
    · exact (h2 _ _ _ _ rfl).elim
    · exact (h3 _ rfl).elim
    · exact absurd h (by simp)

theorem dgParse_sound {t a : Str} {gs : List Str} {dec : Option Str}
    (h : dgParse t = some (a, gs, dec)) :
    t = a ++ dotGroupsStr gs ++ decSuffix dec ∧ a ≠ [] ∧ a.length ≤ 3 ∧
      (∀ x ∈ a, isDigitC x = true) ∧ wfGroups gs ∧ wfDec dec := by
  cases t with
  | nil => simp [dgParse] at h
  | cons c1 rest =>
    by_cases h1 : isDigitC c1 = true
    · cases rest with
      | nil =>
        rw [dgParse, if_pos h1] at h
        simp only [Option.some.injEq, Prod.mk.injEq] at h
        obtain ⟨rfl, rfl, rfl⟩ := h
        refine ⟨rfl, by simp, by simp, ?_, fun g hg => absurd hg (by simp),
          fun d hd => by simp at hd⟩
        intro x hx
        rcases List.mem_cons.mp hx with hx | hx
        · subst hx; exact h1
        · simp at hx
      | cons c2 rest2 =>
        by_cases h2 : isDigitC c2 = true
        · cases rest2 with
          | nil =>
            rw [dgParse, if_pos h1, if_pos h2] at h
            simp only [Option.some.injEq, Prod.mk.injEq] at h
            obtain ⟨rfl, rfl, rfl⟩ := h
            refine ⟨rfl, by simp, by simp, ?_, fun g hg => absurd hg (by simp),
              fun d hd => by simp at hd⟩
            intro x hx
            rcases List.mem_cons.mp hx with hx | hx
            · subst hx; exact h1
            rcases List.mem_cons.mp hx with hx | hx
            · subst hx; exact h2
            · simp at hx
          | cons c3 rest3 =>
            by_cases h3 : isDigitC c3 = true
            · rw [dgParse, if_pos h1, if_pos h2, if_pos h3] at h
              obtain ⟨⟨gs', dec'⟩, hp, he⟩ := Option.map_eq_some'.mp h
              simp only [Prod.mk.injEq] at he
              obtain ⟨rfl, rfl, rfl⟩ := he
              obtain ⟨hr, hwg, hwd⟩ := dgTail_sound hp
              subst hr
              refine ⟨by simp, by simp, by simp, ?_, hwg, hwd⟩
              intro x hx
              rcases List.mem_cons.mp hx with hx | hx
              · subst hx; exact h1
              rcases List.mem_cons.mp hx with hx | hx
              · subst hx; exact h2
              rcases List.mem_cons.mp hx with hx | hx
              · subst hx; exact h3
              · simp at hx
            · rw [dgParse, if_pos h1, if_pos h2, if_neg h3] at h
              obtain ⟨⟨gs', dec'⟩, hp, he⟩ := Option.map_eq_some'.mp h
              simp only [Prod.mk.injEq] at he
              obtain ⟨rfl, rfl, rfl⟩ := he
              obtain ⟨hr, hwg, hwd⟩ := dgTail_sound hp
              rw [hr]
              refine ⟨by simp, by simp, by simp, ?_, hwg, hwd⟩
              intro x hx
              rcases List.mem_cons.mp hx with hx | hx
              · subst hx; exact h1
              rcases List.mem_cons.mp hx with hx | hx
              · subst hx; exact h2
              · simp at hx
        · rw [dgParse.eq_def] at h
          simp only [if_pos h1, if_neg h2] at h
          obtain ⟨⟨gs', dec'⟩, hp, he⟩ := Option.map_eq_some'.mp h
          simp only [Prod.mk.injEq] at he
          obtain ⟨rfl, rfl, rfl⟩ := he
          obtain ⟨hr, hwg, hwd⟩ := dgTail_sound hp
          rw [hr]
          refine ⟨by simp, by simp, by simp, ?_, hwg, hwd⟩
          intro x hx
          rcases List.mem_cons.mp hx with hx | hx
          · subst hx; exact h1
          · simp at hx
    · rw [dgParse.eq_def] at h
      simp only [if_neg h1] at h
      exact absurd h (by simp)

theorem cgParse_sound {t a : Str} {gs : List Str} {dec : Option Str}
    (h : cgParse t = some (a, gs, dec)) :
    t = a ++ commaGroupsStr gs ++ dotSuffix dec ∧ a ≠ [] ∧ a.length ≤ 3 ∧
      (∀ x ∈ a, isDigitC x = true) ∧ gs ≠ [] ∧ wfGroups gs ∧ wfDec dec := by
  cases t with
  | nil => simp [cgParse] at h
  | cons c1 rest =>
    by_cases h1 : isDigitC c1 = true
    · cases rest with
      | nil =>
        rw [cgParse, if_pos h1] at h
        exact absurd h (by simp)
      | cons c2 rest2 =>
        by_cases h2 : isDigitC c2 = true
        · cases rest2 with
          | nil =>
            rw [cgParse, if_pos h1, if_pos h2] at h
            exact absurd h (by simp)
          | cons c3 rest3 =>
            by_cases h3 : isDigitC c3 = true
            · rw [cgParse, if_pos h1, if_pos h2, if_pos h3] at h
              split at h
              · next g gs' dec' heq =>
                simp only [Option.some.injEq, Prod.mk.injEq] at h
                obtain ⟨rfl, rfl, rfl⟩ := h
                obtain ⟨hr, hwg, hwd⟩ := cgTail_sound heq
                subst hr
                refine ⟨by simp, by simp, by simp, ?_, by simp, hwg, hwd⟩
                intro x hx
                rcases List.mem_cons.mp hx with hx | hx
                · subst hx; exact h1
                rcases List.mem_cons.mp hx with hx | hx
                · subst hx; exact h2
                rcases List.mem_cons.mp hx with hx | hx
                · subst hx; exact h3
                · simp at hx
              · exact absurd h (by simp)
            · rw [cgParse, if_pos h1, if_pos h2, if_neg h3] at h
              split at h
              · next g gs' dec' heq =>
                simp only [Option.some.injEq, Prod.mk.injEq] at h
                obtain ⟨rfl, rfl, rfl⟩ := h
                obtain ⟨hr, hwg, hwd⟩ := cgTail_sound heq
                rw [hr]
                refine ⟨by simp, by simp, by simp, ?_, by simp, hwg, hwd⟩
                intro x hx
                rcases List.mem_cons.mp hx with hx | hx
                · subst hx; exact h1
                rcases List.mem_cons.mp hx with hx | hx
                · subst hx; exact h2
                · simp at hx
              · exact absurd h (by simp)
        · rw [cgParse.eq_def] at h
          simp only [if_pos h1, if_neg h2] at h
          split at h
          · next g gs' dec' heq =>
            simp only [Option.some.injEq, Prod.mk.injEq] at h
            obtain ⟨rfl, rfl, rfl⟩ := h
            obtain ⟨hr, hwg, hwd⟩ := cgTail_sound heq
            rw [hr]
            refine ⟨by simp, by simp, by simp, ?_, by simp, hwg, hwd⟩
            intro x hx
            rcases List.mem_cons.mp hx with hx | hx
            · subst hx; exact h1
            · simp at hx
          · exact absurd h (by simp)
    · rw [cgParse.eq_def] at h
      simp only [if_neg h1] at h
      exact absurd h (by simp)

/- -------------------- Character facts about structured tokens -------------------- -/

theorem mem_flatten_digit {gs : List Str} (hwf : wfGroups gs) :
    ∀ x ∈ gs.flatten, isDigitC x = true := by
  intro x hx
  obtain ⟨g, hg, hxg⟩ := List.mem_flatten.mp hx
  exact (hwf g hg).2 x hxg

theorem mem_dotGroupsStr {gs : List Str} (hwf : wfGroups gs) :
    ∀ x ∈ dotGroupsStr gs, isDigitC x = true ∨ x = '.' := by
  intro x hx
  obtain ⟨l, hl, hxl⟩ := List.mem_flatten.mp hx
  obtain ⟨g, hg, rfl⟩ := List.mem_map.mp hl
  rcases List.mem_cons.mp hxl with h | h
  · exact Or.inr h
  · exact Or.inl ((hwf g hg).2 x h)

theorem mem_commaGroupsStr {gs : List Str} (hwf : wfGroups gs) :
    ∀ x ∈ commaGroupsStr gs, isDigitC x = true ∨ x = ',' := by
  intro x hx
  obtain ⟨l, hl, hxl⟩ := List.mem_flatten.mp hx
  obtain ⟨g, hg, rfl⟩ := List.mem_map.mp hl
  rcases List.mem_cons.mp hxl with h | h
  · exact Or.inr h
  · exact Or.inl ((hwf g hg).2 x h)

theorem mem_decSuffix {dec : Option Str} (hwf : wfDec dec) :
    ∀ x ∈ decSuffix dec, isDigitC x = true ∨ x = ',' := by
  intro x hx
  cases dec with
  | none => simp [decSuffix] at hx
  | some d =>
    rcases List.mem_cons.mp hx with h | h
    · exact Or.inr h
    · exact Or.inl ((hwf d rfl).2 x h)

theorem mem_dotSuffix {dec : Option Str} (hwf : wfDec dec) :
    ∀ x ∈ dotSuffix dec, isDigitC x = true ∨ x = '.' := by
  intro x hx
  cases dec with
  | none => simp [dotSuffix] at hx
  | some d =>
    rcases List.mem_cons.mp hx with h | h
    · exact Or.inr h
    · exact Or.inl ((hwf d rfl).2 x h)

theorem removeAll_dotGroupsStr {gs : List Str} (hwf : wfGroups gs) :
    removeAll '.' (dotGroupsStr gs) = gs.flatten := by
  induction gs with
  | nil => rfl
  | cons g gs ih =>
    have hg := hwf g (by simp)
    simp only [dotGroupsStr, List.map_cons, List.flatten_cons] at *
    rw [removeAll_append, removeAll_cons_self,
      removeAll_eq_self (fun x hx => isDigitC_ne_dot (hg.2 x hx)),
      ih (fun g' hg' => hwf g' (by simp [hg']))]

theorem removeAll_commaGroupsStr {gs : List Str} (hwf : wfGroups gs) :
    removeAll ',' (commaGroupsStr gs) = gs.flatten := by
  induction gs with
  | nil => rfl
  | cons g gs ih =>
    have hg := hwf g (by simp)
    simp only [commaGroupsStr, List.map_cons, List.flatten_cons] at *
    rw [removeAll_append, removeAll_cons_self,
      removeAll_eq_self (fun x hx => isDigitC_ne_comma (hg.2 x hx)),
      ih (fun g' hg' => hwf g' (by simp [hg']))]

theorem hasChar_dotGroupsStr_of_ne {gs : List Str} (hne : gs ≠ []) :
    hasChar '.' (dotGroupsStr gs) = true := by
  cases gs with
  | nil => exact absurd rfl hne
  | cons g gs => simp [dotGroupsStr, hasChar_iff_mem]

theorem hasChar_commaGroupsStr_of_ne {gs : List Str} (hne : gs ≠ []) :
    hasChar ',' (commaGroupsStr gs) = true := by
  cases gs with
  | nil => exact absurd rfl hne
  | cons g gs => simp [commaGroupsStr, hasChar_iff_mem]

/-- Entry normalisation for toNumberMaybe on a pure digit/dot/comma token. -/
theorem toNumberMaybe_clean {t : Str} (hne : t ≠ [])
    (htok : ∀ x ∈ t, isDigitC x = true ∨ x = '.' ∨ x = ',') :
    toNumberMaybe t = tnmBody t := by
  have hws : ∀ c ∈ t, jsWhitespace c = false := fun c hc => not_ws_of_tok (htok c hc)
  unfold toNumberMaybe
  rw [jsTrim_eq_self hws]
  rw [if_neg hne]
  congr 1
  apply filter_eq_self_of_all
  intro c hc
  simp [hws c hc]

/-- Entry normalisation for parseNumberAndFormat on a pure digit/dot/comma token. -/
theorem parseNumberAndFormat_clean {t : Str} (hne : t ≠ [])
    (htok : ∀ x ∈ t, isDigitC x = true ∨ x = '.' ∨ x = ',') :
    parseNumberAndFormat t = pnfBody false t := by
  have hws : ∀ c ∈ t, jsWhitespace c = false := fun c hc => not_ws_of_tok (htok c hc)
  have hnb : t.filter (fun c => !(c = '\u00A0' || c = '\u2009')) = t := by
    apply filter_eq_self_of_all
    intro c hc
    simp only [Bool.not_eq_eq_eq_not, Bool.not_false]
    exact not_nbsp_of_tok (htok c hc)
  have hsemi : hasChar ';' t = false := by
    apply hasChar_false
    intro x hx
    rcases htok x hx with h | h | h
    · exact isDigitC_ne_semi h
    · subst h; decide
    · subst h; decide
  unfold parseNumberAndFormat
  rw [jsTrim_eq_self hws, if_neg hne]
  simp only [hnb, hsemi]
  rfl

theorem mem_removeAll {c x : Char} {l : Str} (h : x ∈ removeAll c l) : x ∈ l ∧ x ≠ c := by
  have := List.mem_filter.mp h
  refine ⟨this.1, ?_⟩
  simpa using this.2

theorem lastIdx_cons_self_of_none {c : Char} {xs : Str} (h : hasChar c xs = false) :
    lastIdx c (c :: xs) = 0 := by
  rw [lastIdx_cons, lastIdx_of_not_has h, if_neg (by omega), if_pos rfl]

theorem regexCommaGroups_false_of_no_comma {l : Str} (h : hasChar ',' l = false) :
    regexCommaGroups l = false := by
  unfold regexCommaGroups
  cases hcg : cgParse l with
  | none => rfl
  | some p =>
    obtain ⟨a, gs, dec⟩ := p
    obtain ⟨ht, -, -, -, hgs, -, -⟩ := cgParse_sound hcg
    exfalso
    have hc : hasChar ',' l = true := by
      rw [ht]
      simp [hasChar_commaGroupsStr_of_ne hgs]
    rw [hc] at h
    exact absurd h (by simp)

theorem dotSuffix_no_comma {dec : Option Str} (hwd : wfDec dec) :
    hasChar ',' (dotSuffix dec) = false := by
  apply hasChar_false
  intro x hx
  rcases mem_dotSuffix hwd x hx with h | h
  · exact isDigitC_ne_comma h
  · subst h; decide

theorem decSuffix_no_dot {dec : Option Str} (hwd : wfDec dec) :
    hasChar '.' (decSuffix dec) = false := by
  apply hasChar_false
  intro x hx
  rcases mem_decSuffix hwd x hx with h | h
  · exact isDigitC_ne_dot h
  · subst h; decide

/-- removeAll '.' leaves the decSuffix of a dot-grouped token unchanged. -/
theorem removeAll_dot_decSuffix {dec : Option Str} (hwd : wfDec dec) :
    removeAll '.' (decSuffix dec) = decSuffix dec :=
  removeAll_eq_self (fun x hx => by
    rcases mem_decSuffix hwd x hx with h | h
    · exact isDigitC_ne_dot h
    · subst h; decide)

theorem removeAll_comma_dotSuffix {dec : Option Str} (hwd : wfDec dec) :
    removeAll ',' (dotSuffix dec) = dotSuffix dec :=
  removeAll_eq_self (fun x hx => by
    rcases mem_dotSuffix hwd x hx with h | h
    · exact isDigitC_ne_comma h
    · subst h; decide)

/-- Charset of a dot-grouped token. -/
theorem dotTok_charset {a : Str} {gs : List Str} {dec : Option Str}
    (had : ∀ x ∈ a, isDigitC x = true) (hwg : wfGroups gs) (hwd : wfDec dec) :
    ∀ x ∈ a ++ dotGroupsStr gs ++ decSuffix dec,
      isDigitC x = true ∨ x = '.' ∨ x = ',' := by
  intro x hx
  rcases List.mem_append.mp hx with hx | hx
  · rcases List.mem_append.mp hx with hx | hx
    · exact Or.inl (had x hx)
    · rcases mem_dotGroupsStr hwg x hx with h | h
      · exact Or.inl h
      · exact Or.inr (Or.inl h)
  · rcases mem_decSuffix hwd x hx with h | h
    · exact Or.inl h
    · exact Or.inr (Or.inr h)

/-- Charset of a comma-grouped token. -/
theorem commaTok_charset {a : Str} {gs : List Str} {dec : Option Str}
    (had : ∀ x ∈ a, isDigitC x = true) (hwg : wfGroups gs) (hwd : wfDec dec) :
    ∀ x ∈ a ++ commaGroupsStr gs ++ dotSuffix dec,
      isDigitC x = true ∨ x = '.' ∨ x = ',' := by
  intro x hx
  rcases List.mem_append.mp hx with hx | hx
  · rcases List.mem_append.mp hx with hx | hx
    · exact Or.inl (had x hx)
    · rcases mem_commaGroupsStr hwg x hx with h | h
      · exact Or.inl h
      · exact Or.inr (Or.inr h)
  · rcases mem_dotSuffix hwd x hx with h | h
    · exact Or.inl h
    · exact Or.inr (Or.inl h)

/-- toNumberMaybe on any token matching /^\d{1,3}(\.\d{3})*(,\d+)?$/ resolves
    to the value with the dots deleted and the comma read as decimal point. -/
theorem tnm_dotTok {t a : Str} {gs : List Str} {dec : Option Str}
    (h : dgParse t = some (a, gs, dec)) :
    toNumberMaybe t = some (sepTokVal a gs dec) := by
  obtain ⟨ht, hane, halen, had, hwg, hwd⟩ := dgParse_sound h
  have htok := ht ▸ dotTok_charset had hwg hwd
  have hne : t ≠ [] := by
    rw [ht]
    simp [hane]
  rw [toNumberMaybe_clean hne htok]
  unfold tnmBody
  have hrdg : regexDotGroups t = true := by
    unfold regexDotGroups
    rw [h]
    rfl
  simp only [hrdg, if_true]
  have hflatd : ∀ x ∈ gs.flatten, isDigitC x = true := mem_flatten_digit hwg
  have hs2 : replaceFirst ',' '.' (removeAll '.' t) = (a ++ gs.flatten) ++ dotSuffix dec := by
    rw [ht, removeAll_append, removeAll_append,
      removeAll_eq_self (fun x hx => isDigitC_ne_dot (had x hx)),
      removeAll_dotGroupsStr hwg, removeAll_dot_decSuffix hwd]
    rw [List.append_assoc]
    rw [replaceFirst_append_of_none _ (fun x hx => isDigitC_ne_comma (had x hx))]
    rw [replaceFirst_append_of_none _ (fun x hx => isDigitC_ne_comma (hflatd x hx))]
    cases dec with
    | none => simp [decSuffix, dotSuffix]
    | some d =>
      simp only [decSuffix, dotSuffix, replaceFirst_cons, if_pos rfl]
      simp
  rw [hs2]
  have hnocomma : hasChar ',' ((a ++ gs.flatten) ++ dotSuffix dec) = false := by
    rw [hasChar_append, hasChar_append]
    rw [hasChar_false (fun x hx => isDigitC_ne_comma (had x hx)),
      hasChar_false (fun x hx => isDigitC_ne_comma (hflatd x hx)),
      dotSuffix_no_comma hwd]
    rfl
  rw [regexCommaGroups_false_of_no_comma hnocomma]
  rw [if_neg (by simp)]
  have hafne : a ++ gs.flatten ≠ [] := by simp [hane]
  have hafd : ∀ x ∈ a ++ gs.flatten, isDigitC x = true := by
    intro x hx
    rcases List.mem_append.mp hx with hx | hx
    · exact had x hx
    · exact hflatd x hx
  cases dec with
  | none =>
    simp only [dotSuffix, List.append_nil]
    rw [jsNumber_digits hafne hafd]
    rfl
  | some d =>
    obtain ⟨hdne, hdd⟩ := hwd d rfl
    simp only [dotSuffix]
    rw [jsNumber_dot hafd hdd (Or.inr hdne)]
    rfl

/-- dgParse on 1–3 leading digits followed by a non-digit hands over to dgTail. -/
theorem dgParse_digits_then {a : Str} {c : Char} (R : Str) (hane : a ≠ [])
    (hlen : a.length ≤ 3) (had : ∀ x ∈ a, isDigitC x = true) (hc : isDigitC c = false) :
    dgParse (a ++ c :: R) = (dgTail (c :: R)).map (fun p => (a, p.1, p.2)) := by
  cases a with
  | nil => exact absurd rfl hane
  | cons x a1 =>
    have hx := had x (by simp)
    cases a1 with
    | nil =>
      rw [dgParse.eq_def]
      simp only [List.cons_append, List.nil_append, if_pos hx]
      rw [if_neg (by simp [hc])]
    | cons y a2 =>
      have hy := had y (by simp)
      cases a2 with
      | nil =>
        rw [dgParse.eq_def]
        simp only [List.cons_append, List.nil_append, if_pos hx, if_pos hy]
        rw [if_neg (by simp [hc])]
      | cons z a3 =>
        have hz := had z (by simp)
        cases a3 with
        | nil =>
          rw [dgParse.eq_def]
          simp only [List.cons_append, List.nil_append, if_pos hx, if_pos hy, if_pos hz]
        | cons w a4 => simp at hlen

/-- toNumberMaybe on a token with exactly one comma group and no decimal dot:
    the comma is read as a decimal separator (the "1,234" behaviour). -/
theorem tnm_commaTok_single {t a g : Str}
    (h : cgParse t = some (a, [g], none)) :
    toNumberMaybe t = some ((natOfDigits a : ℚ) + (natOfDigits g : ℚ) / 10 ^ g.length) := by
  obtain ⟨ht, hane, halen, had, hgsne, hwg, hwd⟩ := cgParse_sound h
  have hg := hwg g (by simp)
  have ht' : t = a ++ ',' :: g := by
    rw [ht]
    simp [commaGroupsStr, dotSuffix]
  have hdg : dgParse t = some (a, [], some g) := by
    rw [ht', dgParse_digits_then g hane halen had (by decide)]
    rw [dgTail, if_pos]
    · rfl
    · simp only [Bool.and_eq_true, decide_eq_true_eq]
      refine ⟨?_, all_eq_true_of_forall hg.2⟩
      intro hgnil
      rw [hgnil] at hg
      simp at hg
  have := tnm_dotTok hdg
  simpa [sepTokVal] using this

theorem jsNumber_sepVal {a : Str} {gs : List Str} {dec : Option Str} (hane : a ≠ [])
    (had : ∀ x ∈ a, isDigitC x = true) (hflatd : ∀ x ∈ gs.flatten, isDigitC x = true)
    (hwd : wfDec dec) :
    jsNumber ((a ++ gs.flatten) ++ dotSuffix dec) = some (sepTokVal a gs dec) := by
  have hafne : a ++ gs.flatten ≠ [] := by simp [hane]
  have hafd : ∀ x ∈ a ++ gs.flatten, isDigitC x = true := by
    intro x hx
    rcases List.mem_append.mp hx with hx | hx
    · exact had x hx
    · exact hflatd x hx
  cases dec with
  | none =>
    simp only [dotSuffix, List.append_nil]
    rw [jsNumber_digits hafne hafd]
    rfl
  | some d =>
    obtain ⟨hdne, hdd⟩ := hwd d rfl
    simp only [dotSuffix]
    rw [jsNumber_dot hafd hdd (Or.inr hdne)]
    rfl

/-- toNumberMaybe on a token matching /^\d{1,3}(,\d{3})+(\.\d+)?$/ that has a
    decimal dot or at least two comma groups: the commas are stripped. -/
theorem tnm_commaTok_strip {t a : Str} {gs : List Str} {dec : Option Str}
    (h : cgParse t = some (a, gs, dec)) (hmulti : 2 ≤ gs.length ∨ dec ≠ none) :
    toNumberMaybe t = some (sepTokVal a gs dec) := by
  obtain ⟨ht, hane, halen, had, hgsne, hwg, hwd⟩ := cgParse_sound h
  have htok := ht ▸ commaTok_charset had hwg hwd
  have hne : t ≠ [] := by
    rw [ht]
    simp [hane]
  have hflatd : ∀ x ∈ gs.flatten, isDigitC x = true := mem_flatten_digit hwg
  rw [toNumberMaybe_clean hne htok]
  unfold tnmBody
  obtain ⟨g1, gs', rfl⟩ : ∃ g1 gs', gs = g1 :: gs' := by
    cases gs with
    | nil => exact absurd rfl hgsne
    | cons g1 gs' => exact ⟨g1, gs', rfl⟩
  have hg1 := hwg g1 (by simp)
  have ht2 : t = a ++ ',' :: (g1 ++ (commaGroupsStr gs' ++ dotSuffix dec)) := by
    rw [ht]
    simp [commaGroupsStr, List.append_assoc]
  have hbad : ∃ x ∈ g1 ++ (commaGroupsStr gs' ++ dotSuffix dec), isDigitC x = false := by
    rcases hmulti with hlen2 | hdec
    · obtain ⟨g2, gs'', rfl⟩ : ∃ g2 gs'', gs' = g2 :: gs'' := by
        cases gs' with
        | nil => simp at hlen2
        | cons g2 gs'' => exact ⟨g2, gs'', rfl⟩
      exact ⟨',', by simp [commaGroupsStr], by decide⟩
    · obtain ⟨d, rfl⟩ : ∃ d, dec = some d := by
        cases dec with
        | none => exact absurd rfl hdec
        | some d => exact ⟨d, rfl⟩
      exact ⟨'.', by simp [dotSuffix], by decide⟩
  have hrdg : regexDotGroups t = false := by
    unfold regexDotGroups
    rw [ht2, dgParse_digits_then _ hane halen had (by decide)]
    rw [dgTail, if_neg]
    · rfl
    · simp only [Bool.and_eq_true, decide_eq_true_eq, not_and]
      intro _
      obtain ⟨x, hx, hxd⟩ := hbad
      intro hall
      rw [List.all_eq_true] at hall
      rw [hall x hx] at hxd
      exact absurd hxd (by simp)
  have hric : regexIntComma t = false := by
    unfold regexIntComma
    rw [ht2, splitOnChar_append_cons _ (fun x hx => isDigitC_ne_comma (had x hx))]
    cases gs' with
    | cons g2 gs'' =>
      have hsplit2 : splitOnChar ',' (g1 ++ (commaGroupsStr (g2 :: gs'') ++ dotSuffix dec)) =
          g1 :: splitOnChar ',' (g2 ++ (commaGroupsStr gs'' ++ dotSuffix dec)) := by
        have harr : g1 ++ (commaGroupsStr (g2 :: gs'') ++ dotSuffix dec) =
            g1 ++ ',' :: (g2 ++ (commaGroupsStr gs'' ++ dotSuffix dec)) := by
          simp [commaGroupsStr, List.append_assoc]
        rw [harr]
        exact splitOnChar_append_cons _ (fun x hx => isDigitC_ne_comma (hg1.2 x hx))
      rw [hsplit2]
      obtain ⟨c, cs, hcs⟩ : ∃ c cs,
          splitOnChar ',' (g2 ++ (commaGroupsStr gs'' ++ dotSuffix dec)) = c :: cs := by
        cases hsp : splitOnChar ',' (g2 ++ (commaGroupsStr gs'' ++ dotSuffix dec)) with
        | nil => exact absurd hsp (splitOnChar_ne_nil _ _)
        | cons c cs => exact ⟨c, cs, rfl⟩
      rw [hcs]
    | nil =>
      obtain ⟨d, rfl⟩ : ∃ d, dec = some d := by
        rcases hmulti with hlen2 | hdec
        · simp at hlen2
        · cases dec with
          | none => exact absurd rfl hdec
          | some d => exact ⟨d, rfl⟩
      have hR : g1 ++ (commaGroupsStr [] ++ dotSuffix (some d)) = g1 ++ '.' :: d := by
        simp [commaGroupsStr, dotSuffix]
      rw [hR]
      rw [splitOnChar_of_not_has (fun x hx => ?_)]
      · have hRall : (g1 ++ '.' :: d).all isDigitC = false := by
          rw [Bool.eq_false_iff]
          intro hall
          rw [List.all_eq_true] at hall
          have := hall '.' (by simp)
          exact absurd this (by decide)
        simp [hRall]
      · rcases List.mem_append.mp hx with hx | hx
        · exact isDigitC_ne_comma (hg1.2 x hx)
        · rcases List.mem_cons.mp hx with hx | hx
          · subst hx; decide
          · exact isDigitC_ne_comma ((hwd d rfl).2 x hx)
  have hrcg : regexCommaGroups t = true := by
    unfold regexCommaGroups
    rw [h]
    rfl
  rw [hrdg, hric]
  simp only [Bool.false_eq_true, if_false, hrcg, if_true]
  have hs3 : removeAll ',' t = (a ++ (g1 :: gs').flatten) ++ dotSuffix dec := by
    rw [ht, removeAll_append, removeAll_append,
      removeAll_eq_self (fun x hx => isDigitC_ne_comma (had x hx)),
      removeAll_commaGroupsStr hwg, removeAll_comma_dotSuffix hwd]
  rw [hs3]
  exact jsNumber_sepVal hane had hflatd hwd

/-- parseNumberAndFormat on A ++ ',' ++ B where A holds digits and at least one
    grouping dot and B is the all-digit decimal tail: the comma (the last
    separator) is the decimal separator, the dots are stripped as grouping. -/
theorem pnf_comma_last {A B : Str} (hA : ∀ x ∈ A, isDigitC x = true ∨ x = '.')
    (hdot : hasChar '.' A = true) (hBne : B ≠ []) (hB : ∀ x ∈ B, isDigitC x = true) :
    parseNumberAndFormat (A ++ ',' :: B) =
      some ⟨(natOfDigits (removeAll '.' A) : ℚ) + (natOfDigits B : ℚ) / 10 ^ B.length,
            decFmtGrouped B.length, B.length, true⟩ := by
  have htok : ∀ x ∈ A ++ ',' :: B, isDigitC x = true ∨ x = '.' ∨ x = ',' := by
    intro x hx
    rcases List.mem_append.mp hx with hx | hx
    · rcases hA x hx with h | h
      · exact Or.inl h
      · exact Or.inr (Or.inl h)
    · rcases List.mem_cons.mp hx with hx | hx
      · exact Or.inr (Or.inr hx)
      · exact Or.inl (hB x hx)
  have hne : A ++ ',' :: B ≠ [] := by simp
  rw [parseNumberAndFormat_clean hne htok]
  unfold pnfBody
  have hBnc : hasChar ',' B = false := hasChar_false (fun x hx => isDigitC_ne_comma (hB x hx))
  have hBnd : hasChar '.' B = false := hasChar_false (fun x hx => isDigitC_ne_dot (hB x hx))
  have hdott : hasChar '.' (A ++ ',' :: B) = true := by
    rw [hasChar_append, hdot]
    rfl
  have hcommat : hasChar ',' (A ++ ',' :: B) = true := by
    rw [hasChar_append, hasChar_cons]
    simp
  have hcommaB : hasChar ',' (',' :: B) = true := by
    rw [hasChar_cons]
    simp
  have hdotB : hasChar '.' (',' :: B) = false := by
    rw [hasChar_cons, hBnd]
    simp
  have hlc : lastIdx ',' (A ++ ',' :: B) = (A.length : ℤ) := by
    rw [lastIdx_append_of_has _ hcommaB, lastIdx_cons_self_of_none hBnc]
    omega
  have hld : lastIdx '.' (A ++ ',' :: B) = lastIdx '.' A :=
    lastIdx_append_of_not_has _ hdotB
  have hcmp : lastIdx ',' (A ++ ',' :: B) > lastIdx '.' (A ++ ',' :: B) := by
    rw [hlc, hld]
    have := lastIdx_lt_length '.' A
    omega
  simp only [hdott, hcommat, Bool.and_self, if_true]
  rw [if_pos hcmp]
  have hrAd : ∀ x ∈ removeAll '.' A, isDigitC x = true := by
    intro x hx
    obtain ⟨hxA, hxne⟩ := mem_removeAll hx
    rcases hA x hxA with h | h
    · exact h
    · exact absurd h hxne
  have hnd : removeAll '.' (A ++ ',' :: B) = removeAll '.' A ++ ',' :: B := by
    rw [removeAll_append]
    congr 1
    rw [removeAll_cons, if_neg (by decide),
      removeAll_eq_self (fun x hx => isDigitC_ne_dot (hB x hx))]
  have hcan : replaceFirst ',' '.' (removeAll '.' (A ++ ',' :: B)) =
      removeAll '.' A ++ '.' :: B := by
    rw [hnd, replaceFirst_append_of_none _ (fun x hx => isDigitC_ne_comma (hrAd x hx))]
    rw [replaceFirst_cons, if_pos rfl]
  rw [hcan, jsNumber_dot hrAd hB (Or.inr hBne)]
  have htail : (A ++ ',' :: B).drop ((lastIdx ',' (A ++ ',' :: B) + 1).toNat) = B := by
    rw [hlc]
    have h1 : ((A.length : ℤ) + 1).toNat = A.length + 1 := by omega
    rw [h1]
    have harr : A ++ ',' :: B = (A ++ [',']) ++ B := by simp
    have h2 : A.length + 1 = (A ++ [',']).length + 0 := by simp
    rw [harr, h2, drop_append_len]
    rfl
  rw [htail]
  have hcond : (decide (B ≠ []) && List.all B isDigitC) = true := by
    simp only [Bool.and_eq_true, decide_eq_true_eq]
    exact ⟨hBne, all_eq_true_of_forall hB⟩
  rw [if_pos hcond]

/-- parseNumberAndFormat on A ++ '.' ++ B where A holds digits and at least one
    grouping comma and B is the all-digit decimal tail: the dot (the last
    separator) is the decimal separator, the commas are stripped as grouping. -/
theorem pnf_dot_last {A B : Str} (hA : ∀ x ∈ A, isDigitC x = true ∨ x = ',')
    (hcomma : hasChar ',' A = true) (hBne : B ≠ []) (hB : ∀ x ∈ B, isDigitC x = true) :
    parseNumberAndFormat (A ++ '.' :: B) =
      some ⟨(natOfDigits (removeAll ',' A) : ℚ) + (natOfDigits B : ℚ) / 10 ^ B.length,
            decFmtGrouped B.length, B.length, true⟩ := by
  have htok : ∀ x ∈ A ++ '.' :: B, isDigitC x = true ∨ x = '.' ∨ x = ',' := by
    intro x hx
    rcases List.mem_append.mp hx with hx | hx
    · rcases hA x hx with h | h
      · exact Or.inl h
      · exact Or.inr (Or.inr h)
    · rcases List.mem_cons.mp hx with hx | hx
      · exact Or.inr (Or.inl hx)
      · exact Or.inl (hB x hx)
  have hne : A ++ '.' :: B ≠ [] := by simp
  rw [parseNumberAndFormat_clean hne htok]
  unfold pnfBody
  have hBnc : hasChar ',' B = false := hasChar_false (fun x hx => isDigitC_ne_comma (hB x hx))
  have hBnd : hasChar '.' B = false := hasChar_false (fun x hx => isDigitC_ne_dot (hB x hx))
  have hcommat : hasChar ',' (A ++ '.' :: B) = true := by
    rw [hasChar_append, hcomma]
    rfl
  have hdott : hasChar '.' (A ++ '.' :: B) = true := by
    rw [hasChar_append, hasChar_cons]
    simp
  have hdotB : hasChar '.' ('.' :: B) = true := by
    rw [hasChar_cons]
    simp
  have hcommaB : hasChar ',' ('.' :: B) = false := by
    rw [hasChar_cons, hBnc]
    simp
  have hld : lastIdx '.' (A ++ '.' :: B) = (A.length : ℤ) := by
    rw [lastIdx_append_of_has _ hdotB, lastIdx_cons_self_of_none hBnd]
    omega
  have hlc : lastIdx ',' (A ++ '.' :: B) = lastIdx ',' A :=
    lastIdx_append_of_not_has _ hcommaB
  have hcmp : ¬(lastIdx ',' (A ++ '.' :: B) > lastIdx '.' (A ++ '.' :: B)) := by
    rw [hlc, hld]
    have := lastIdx_lt_length ',' A
    omega
  simp only [hdott, hcommat, Bool.and_self, if_true]
  rw [if_neg hcmp]
  have hrAd : ∀ x ∈ removeAll ',' A, isDigitC x = true := by
    intro x hx
    obtain ⟨hxA, hxne⟩ := mem_removeAll hx
    rcases hA x hxA with h | h
    · exact h
    · exact absurd h hxne
  have hnc : removeAll ',' (A ++ '.' :: B) = removeAll ',' A ++ '.' :: B := by
    rw [removeAll_append]
    congr 1
    rw [removeAll_cons, if_neg (by decide),
      removeAll_eq_self (fun x hx => isDigitC_ne_comma (hB x hx))]
  rw [hnc, jsNumber_dot hrAd hB (Or.inr hBne)]
  have htail : (A ++ '.' :: B).drop ((lastIdx '.' (A ++ '.' :: B) + 1).toNat) = B := by
    rw [hld]
    have h1 : ((A.length : ℤ) + 1).toNat = A.length + 1 := by omega
    rw [h1]
    have harr : A ++ '.' :: B = (A ++ ['.']) ++ B := by simp
    have h2 : A.length + 1 = (A ++ ['.']).length + 0 := by simp
    rw [harr, h2, drop_append_len]
    rfl
  rw [htail]
  have hcond : (decide (B ≠ []) && List.all B isDigitC) = true := by
    simp only [Bool.and_eq_true, decide_eq_true_eq]
    exact ⟨hBne, all_eq_true_of_forall hB⟩
  rw [if_pos hcond]

/-- parseNumberAndFormat on digits ++ ',' ++ 1–3 digits: decimal comma, no grouping. -/
theorem pnf_comma_decimal {A B : Str} (hA : ∀ x ∈ A, isDigitC x = true)
    (hBne : B ≠ []) (hBlen : B.length ≤ 3) (hB : ∀ x ∈ B, isDigitC x = true) :
    parseNumberAndFormat (A ++ ',' :: B) =
      some ⟨(natOfDigits A : ℚ) + (natOfDigits B : ℚ) / 10 ^ B.length,
            decFmt B.length, B.length, false⟩ := by
  have htok : ∀ x ∈ A ++ ',' :: B, isDigitC x = true ∨ x = '.' ∨ x = ',' := by
    intro x hx
    rcases List.mem_append.mp hx with hx | hx
    · exact Or.inl (hA x hx)
    · rcases List.mem_cons.mp hx with hx | hx
      · exact Or.inr (Or.inr hx)
      · exact Or.inl (hB x hx)
  have hne : A ++ ',' :: B ≠ [] := by simp
  rw [parseNumberAndFormat_clean hne htok]
  unfold pnfBody
  have hdott : hasChar '.' (A ++ ',' :: B) = false := by
    apply hasChar_false
    intro x hx
    rcases List.mem_append.mp hx with hx | hx
    · exact isDigitC_ne_dot (hA x hx)
    · rcases List.mem_cons.mp hx with hx | hx
      · subst hx; decide
      · exact isDigitC_ne_dot (hB x hx)
  have hcommat : hasChar ',' (A ++ ',' :: B) = true := by
    rw [hasChar_append, hasChar_cons]
    simp
  have hsplit : splitOnChar ',' (A ++ ',' :: B) = [A, B] := by
    rw [splitOnChar_append_cons _ (fun x hx => isDigitC_ne_comma (hA x hx)),
      splitOnChar_of_not_has (fun x hx => isDigitC_ne_comma (hB x hx))]
  simp only [hdott, hcommat, Bool.false_and]
  rw [if_neg (by simp), if_true]
  rw [hsplit]
  have hcond : (decide (([A, B] : List Str).length = 2) &&
      (decide (([A, B] : List Str).getD 1 [] ≠ []) &&
        decide ((([A, B] : List Str).getD 1 []).length ≤ 3) &&
        (([A, B] : List Str).getD 1 []).all isDigitC)) = true := by
    simp [hBne, hBlen, all_eq_true_of_forall hB]
  rw [if_pos hcond]
  simp only [List.getD_cons_zero, List.getD_cons_succ]
  rw [jsNumber_dot hA hB (Or.inr hBne)]
  rfl

/-- parseNumberAndFormat on digits ++ '.' ++ 1–3 digits: decimal dot, no grouping. -/
theorem pnf_dot_decimal {A B : Str} (hA : ∀ x ∈ A, isDigitC x = true)
    (hBne : B ≠ []) (hBlen : B.length ≤ 3) (hB : ∀ x ∈ B, isDigitC x = true) :
    parseNumberAndFormat (A ++ '.' :: B) =
      some ⟨(natOfDigits A : ℚ) + (natOfDigits B : ℚ) / 10 ^ B.length,
            decFmt B.length, B.length, false⟩ := by
  have htok : ∀ x ∈ A ++ '.' :: B, isDigitC x = true ∨ x = '.' ∨ x = ',' := by
    intro x hx
    rcases List.mem_append.mp hx with hx | hx
    · exact Or.inl (hA x hx)
    · rcases List.mem_cons.mp hx with hx | hx
      · exact Or.inr (Or.inl hx)
      · exact Or.inl (hB x hx)
  have hne : A ++ '.' :: B ≠ [] := by simp
  rw [parseNumberAndFormat_clean hne htok]
  unfold pnfBody
  have hcommat : hasChar ',' (A ++ '.' :: B) = false := by
    apply hasChar_false
    intro x hx
    rcases List.mem_append.mp hx with hx | hx
    · exact isDigitC_ne_comma (hA x hx)
    · rcases List.mem_cons.mp hx with hx | hx
      · subst hx; decide
      · exact isDigitC_ne_comma (hB x hx)
  have hdott : hasChar '.' (A ++ '.' :: B) = true := by
    rw [hasChar_append, hasChar_cons]
    simp
  have hsplit : splitOnChar '.' (A ++ '.' :: B) = [A, B] := by
    rw [splitOnChar_append_cons _ (fun x hx => isDigitC_ne_dot (hA x hx)),
      splitOnChar_of_not_has (fun x hx => isDigitC_ne_dot (hB x hx))]
  simp only [hdott, hcommat, Bool.and_false]
  rw [if_neg (by simp), if_neg (by simp), if_true]
  rw [hsplit]
  have hcond : (decide (([A, B] : List Str).length = 2) &&
      (decide (([A, B] : List Str).getD 1 [] ≠ []) &&
        decide ((([A, B] : List Str).getD 1 []).length ≤ 3) &&
        (([A, B] : List Str).getD 1 []).all isDigitC)) = true := by
    simp [hBne, hBlen, all_eq_true_of_forall hB]
  rw [if_pos hcond]
  simp only [List.getD_cons_zero, List.getD_cons_succ]
  rw [jsNumber_dot hA hB (Or.inr hBne)]
  rfl

/-- parseNumberAndFormat on digits ++ ',' ++ four-or-more digits: the comma is
    grouping, everything is concatenated to an integer. -/
theorem pnf_comma_grouping_long {A B : Str} (hA : ∀ x ∈ A, isDigitC x = true)
    (hBlen : 4 ≤ B.length) (hB : ∀ x ∈ B, isDigitC x = true) :
    parseNumberAndFormat (A ++ ',' :: B) =
      some ⟨(natOfDigits (A ++ B) : ℚ), decFmtGrouped 0, 0, true⟩ := by
  have hBne : B ≠ [] := by
    intro hB0
    rw [hB0] at hBlen
    simp at hBlen
  have htok : ∀ x ∈ A ++ ',' :: B, isDigitC x = true ∨ x = '.' ∨ x = ',' := by
    intro x hx
    rcases List.mem_append.mp hx with hx | hx
    · exact Or.inl (hA x hx)
    · rcases List.mem_cons.mp hx with hx | hx
      · exact Or.inr (Or.inr hx)
      · exact Or.inl (hB x hx)
  have hne : A ++ ',' :: B ≠ [] := by simp
  rw [parseNumberAndFormat_clean hne htok]
  unfold pnfBody
  have hdott : hasChar '.' (A ++ ',' :: B) = false := by
    apply hasChar_false
    intro x hx
    rcases List.mem_append.mp hx with hx | hx
    · exact isDigitC_ne_dot (hA x hx)
    · rcases List.mem_cons.mp hx with hx | hx
      · subst hx; decide
      · exact isDigitC_ne_dot (hB x hx)
  have hcommat : hasChar ',' (A ++ ',' :: B) = true := by
    rw [hasChar_append, hasChar_cons]
    simp
  have hsplit : splitOnChar ',' (A ++ ',' :: B) = [A, B] := by
    rw [splitOnChar_append_cons _ (fun x hx => isDigitC_ne_comma (hA x hx)),
      splitOnChar_of_not_has (fun x hx => isDigitC_ne_comma (hB x hx))]
  simp only [hdott, hcommat, Bool.false_and]
  rw [if_neg (by simp), if_true]
  rw [hsplit]
  have hcond : (decide (([A, B] : List Str).length = 2) &&
      (decide (([A, B] : List Str).getD 1 [] ≠ []) &&
        decide ((([A, B] : List Str).getD 1 []).length ≤ 3) &&
        (([A, B] : List Str).getD 1 []).all isDigitC)) = false := by
    simp only [List.getD_cons_zero, List.getD_cons_succ]
    have : decide (B.length ≤ 3) = false := by
      simp only [decide_eq_false_iff_not]
      omega
    simp [this]
  rw [if_neg (by rw [hcond]; simp)]
  have hrm : removeAll ',' (A ++ ',' :: B) = A ++ B := by
    rw [removeAll_append, removeAll_cons_self,
      removeAll_eq_self (fun x hx => isDigitC_ne_comma (hA x hx)),
      removeAll_eq_self (fun x hx => isDigitC_ne_comma (hB x hx))]
  rw [hrm]
  rw [jsNumber_digits (by simp [hBne]) (fun x hx => by
    rcases List.mem_append.mp hx with hx | hx
    · exact hA x hx
    · exact hB x hx)]
  rfl

/-- parseNumberAndFormat on a no-separator digit token: plain integer. -/
theorem pnf_integer {A : Str} (hAne : A ≠ []) (hA : ∀ x ∈ A, isDigitC x = true) :
    parseNumberAndFormat A = some ⟨(natOfDigits A : ℚ), "0", 0, false⟩ := by
  have htok : ∀ x ∈ A, isDigitC x = true ∨ x = '.' ∨ x = ',' :=
    fun x hx => Or.inl (hA x hx)
  rw [parseNumberAndFormat_clean hAne htok]
  unfold pnfBody
  have hdott : hasChar '.' A = false :=
    hasChar_false (fun x hx => isDigitC_ne_dot (hA x hx))
  have hcommat : hasChar ',' A = false :=
    hasChar_false (fun x hx => isDigitC_ne_comma (hA x hx))
  simp only [hdott, hcommat, Bool.and_false]
  rw [if_neg (by simp), if_neg (by simp), if_neg (by simp)]
  rw [jsNumber_digits hAne hA]
  rfl

/-- parseNumberAndFormat with two or more comma groups and no dot:
    the commas are grouping separators and are stripped. -/
theorem pnf_comma_grouping_multi {a g1 g2 : Str} {gs'' : List Str}
    (hane : a ≠ []) (ha : ∀ x ∈ a, isDigitC x = true)
    (hwg : wfGroups (g1 :: g2 :: gs'')) :
    parseNumberAndFormat (a ++ commaGroupsStr (g1 :: g2 :: gs'')) =
      some ⟨(natOfDigits (a ++ (g1 :: g2 :: gs'').flatten) : ℚ), decFmtGrouped 0, 0, true⟩ := by
  have hflatd := mem_flatten_digit hwg
  have htok : ∀ x ∈ a ++ commaGroupsStr (g1 :: g2 :: gs''),
      isDigitC x = true ∨ x = '.' ∨ x = ',' := by
    intro x hx
    rcases List.mem_append.mp hx with hx | hx
    · exact Or.inl (ha x hx)
    · rcases mem_commaGroupsStr hwg x hx with h | h
      · exact Or.inl h
      · exact Or.inr (Or.inr h)
  have hne : a ++ commaGroupsStr (g1 :: g2 :: gs'') ≠ [] := by simp [hane]
  rw [parseNumberAndFormat_clean hne htok]
  unfold pnfBody
  have hdott : hasChar '.' (a ++ commaGroupsStr (g1 :: g2 :: gs'')) = false := by
    apply hasChar_false
    intro x hx
    rcases List.mem_append.mp hx with hx2 | hx2
    · exact isDigitC_ne_dot (ha x hx2)
    · rcases mem_commaGroupsStr hwg x hx2 with h2 | h2
      · exact isDigitC_ne_dot h2
      · subst h2; decide
  have hcommat : hasChar ',' (a ++ commaGroupsStr (g1 :: g2 :: gs'')) = true := by
    rw [hasChar_append, hasChar_commaGroupsStr_of_ne (by simp)]
    simp
  have harr : a ++ commaGroupsStr (g1 :: g2 :: gs'') =
      a ++ ',' :: (g1 ++ (',' :: (g2 ++ commaGroupsStr gs''))) := by
    simp [commaGroupsStr, List.append_assoc]
  have hsplit : splitOnChar ',' (a ++ commaGroupsStr (g1 :: g2 :: gs'')) =
      a :: g1 :: splitOnChar ',' (g2 ++ commaGroupsStr gs'') := by
    rw [harr, splitOnChar_append_cons _ (fun x hx => isDigitC_ne_comma (ha x hx)),
      splitOnChar_append_cons _ (fun x hx => isDigitC_ne_comma ((hwg g1 (by simp)).2 x hx))]
  simp only [hdott, hcommat, Bool.false_and]
  rw [if_neg (by simp), if_true]
  rw [hsplit]
  obtain ⟨c, cs, hcs⟩ : ∃ c cs, splitOnChar ',' (g2 ++ commaGroupsStr gs'') = c :: cs := by
    cases hsp : splitOnChar ',' (g2 ++ commaGroupsStr gs'') with
    | nil => exact absurd hsp (splitOnChar_ne_nil _ _)
    | cons c cs => exact ⟨c, cs, rfl⟩
  rw [hcs]
  rw [if_neg (by simp)]
  have hrm : removeAll ',' (a ++ commaGroupsStr (g1 :: g2 :: gs'')) =
      a ++ (g1 :: g2 :: gs'').flatten := by
    rw [removeAll_append, removeAll_eq_self (fun x hx => isDigitC_ne_comma (ha x hx)),
      removeAll_commaGroupsStr hwg]
  rw [hrm]
  rw [jsNumber_digits (by simp [hane]) (fun x hx => by
    rcases List.mem_append.mp hx with hx | hx
    · exact ha x hx
    · exact hflatd x hx)]
  rfl

/-- parseNumberAndFormat with two or more dot groups and no comma:
    the dots are grouping separators and are stripped. -/
theorem pnf_dot_grouping_multi {a g1 g2 : Str} {gs'' : List Str}
    (hane : a ≠ []) (ha : ∀ x ∈ a, isDigitC x = true)
    (hwg : wfGroups (g1 :: g2 :: gs'')) :
    parseNumberAndFormat (a ++ dotGroupsStr (g1 :: g2 :: gs'')) =
      some ⟨(natOfDigits (a ++ (g1 :: g2 :: gs'').flatten) : ℚ), decFmtGrouped 0, 0, true⟩ := by
  have hflatd := mem_flatten_digit hwg
  have htok : ∀ x ∈ a ++ dotGroupsStr (g1 :: g2 :: gs''),
      isDigitC x = true ∨ x = '.' ∨ x = ',' := by
    intro x hx
    rcases List.mem_append.mp hx with hx | hx
    · exact Or.inl (ha x hx)
    · rcases mem_dotGroupsStr hwg x hx with h | h
      · exact Or.inl h
      · exact Or.inr (Or.inl h)
  have hne : a ++ dotGroupsStr (g1 :: g2 :: gs'') ≠ [] := by simp [hane]
  rw [parseNumberAndFormat_clean hne htok]
  unfold pnfBody
  have hcommat : hasChar ',' (a ++ dotGroupsStr (g1 :: g2 :: gs'')) = false := by
    apply hasChar_false
    intro x hx
    rcases List.mem_append.mp hx with hx2 | hx2
    · exact isDigitC_ne_comma (ha x hx2)
    · rcases mem_dotGroupsStr hwg x hx2 with h2 | h2
      · exact isDigitC_ne_comma h2
      · subst h2; decide
  have hdott : hasChar '.' (a ++ dotGroupsStr (g1 :: g2 :: gs'')) = true := by
    rw [hasChar_append, hasChar_dotGroupsStr_of_ne (by simp)]
    simp
  have harr : a ++ dotGroupsStr (g1 :: g2 :: gs'') =
      a ++ '.' :: (g1 ++ ('.' :: (g2 ++ dotGroupsStr gs''))) := by
    simp [dotGroupsStr, List.append_assoc]
  have hsplit : splitOnChar '.' (a ++ dotGroupsStr (g1 :: g2 :: gs'')) =
      a :: g1 :: splitOnChar '.' (g2 ++ dotGroupsStr gs'') := by
    rw [harr, splitOnChar_append_cons _ (fun x hx => isDigitC_ne_dot (ha x hx)),
      splitOnChar_append_cons _ (fun x hx => isDigitC_ne_dot ((hwg g1 (by simp)).2 x hx))]
  simp only [hdott, hcommat, Bool.and_false]
  rw [if_neg (by simp), if_neg (by simp), if_true]
  rw [hsplit]
  obtain ⟨c, cs, hcs⟩ : ∃ c cs, splitOnChar '.' (g2 ++ dotGroupsStr gs'') = c :: cs := by
    cases hsp : splitOnChar '.' (g2 ++ dotGroupsStr gs'') with
    | nil => exact absurd hsp (splitOnChar_ne_nil _ _)
    | cons c cs => exact ⟨c, cs, rfl⟩
  rw [hcs]
  rw [if_neg (by simp)]
  have hrm : removeAll '.' (a ++ dotGroupsStr (g1 :: g2 :: gs'')) =
      a ++ (g1 :: g2 :: gs'').flatten := by
    rw [removeAll_append, removeAll_eq_self (fun x hx => isDigitC_ne_dot (ha x hx)),
      removeAll_dotGroupsStr hwg]
  rw [hrm]
  rw [jsNumber_digits (by simp [hane]) (fun x hx => by
    rcases List.mem_append.mp hx with hx | hx
    · exact ha x hx
    · exact hflatd x hx)]
  rfl

/-- C4 (amended): For every token matching /^\d{1,3}(\.\d{3})*(,\d+)?$/ (hypothesis:
    the matcher succeeds with groups a, gs, dec), toNumberMaybe resolves the token
    to the value obtained by deleting every '.' and reading ',' as the decimal
    point.  parseNumberAndFormat returns that same value with decimal count and
    grouping as listed — except in two cases forced by the code: a token with
    exactly one dot group and no comma ("1.234") is read with the dot as a decimal
    point (value 1.234, three decimals, no grouping), and a comma tail of four or
    more digits is read as grouping. -/
theorem C4_amended (t a : Str) (gs : List Str) (dec : Option Str)
    (h : dgParse t = some (a, gs, dec)) :
    toNumberMaybe t = some (sepTokVal a gs dec) ∧
    (match dec with
     | some d =>
        (gs ≠ [] →
          parseNumberAndFormat t =
            some ⟨sepTokVal a gs dec, decFmtGrouped d.length, d.length, true⟩) ∧
        (gs = [] → d.length ≤ 3 →
          parseNumberAndFormat t =
            some ⟨sepTokVal a gs dec, decFmt d.length, d.length, false⟩) ∧
        (gs = [] → 4 ≤ d.length →
          parseNumberAndFormat t =
            some ⟨(natOfDigits (a ++ d) : ℚ), decFmtGrouped 0, 0, true⟩)
     | none =>
        (2 ≤ gs.length →
          parseNumberAndFormat t =
            some ⟨sepTokVal a gs dec, decFmtGrouped 0, 0, true⟩) ∧
        (∀ g, gs = [g] →
          parseNumberAndFormat t =
            some ⟨(natOfDigits a : ℚ) + (natOfDigits g : ℚ) / 10 ^ g.length,
                  decFmt g.length, g.length, false⟩) ∧
        (gs = [] → parseNumberAndFormat t = some ⟨sepTokVal a gs dec, "0", 0, false⟩)) := by
  obtain ⟨ht, hane, halen, had, hwg, hwd⟩ := dgParse_sound h
  refine ⟨tnm_dotTok h, ?_⟩
  cases dec with
  | some d =>
    obtain ⟨hdne, hdd⟩ := hwd d rfl
    refine ⟨?_, ?_, ?_⟩
    · intro hgs
      have hA : ∀ x ∈ a ++ dotGroupsStr gs, isDigitC x = true ∨ x = '.' := by
        intro x hx
        rcases List.mem_append.mp hx with hx | hx
        · exact Or.inl (had x hx)
        · exact mem_dotGroupsStr hwg x hx
      have hdot : hasChar '.' (a ++ dotGroupsStr gs) = true := by
        rw [hasChar_append, hasChar_dotGroupsStr_of_ne hgs]
        simp
      have hform : t = (a ++ dotGroupsStr gs) ++ ',' :: d := by
        rw [ht]
        simp [decSuffix, List.append_assoc]
      have hrm : removeAll '.' (a ++ dotGroupsStr gs) = a ++ gs.flatten := by
        rw [removeAll_append, removeAll_eq_self (fun x hx => isDigitC_ne_dot (had x hx)),
          removeAll_dotGroupsStr hwg]
      rw [hform, pnf_comma_last hA hdot hdne hdd, hrm]
      simp [sepTokVal]
    · intro hgs hdlen
      subst hgs
      have hform : t = a ++ ',' :: d := by
        rw [ht]
        simp [decSuffix, dotGroupsStr]
      rw [hform, pnf_comma_decimal had hdne hdlen hdd]
      simp [sepTokVal]
    · intro hgs hdlen
      subst hgs
      have hform : t = a ++ ',' :: d := by
        rw [ht]
        simp [decSuffix, dotGroupsStr]
      rw [hform, pnf_comma_grouping_long had hdlen hdd]
  | none =>
    refine ⟨?_, ?_, ?_⟩
    · intro hlen2
      obtain ⟨g1, g2, gs'', rfl⟩ : ∃ g1 g2 gs'', gs = g1 :: g2 :: gs'' := by
        cases gs with
        | nil => simp at hlen2
        | cons g1 gs' =>
          cases gs' with
          | nil => simp at hlen2
          | cons g2 gs'' => exact ⟨g1, g2, gs'', rfl⟩
      have hform : t = a ++ dotGroupsStr (g1 :: g2 :: gs'') := by
        rw [ht]
        simp [decSuffix]
      rw [hform, pnf_dot_grouping_multi hane had hwg]
      simp [sepTokVal]
    · intro g hgs
      subst hgs
      have hg := hwg g (by simp)
      have hform : t = a ++ '.' :: g := by
        rw [ht]
        simp [decSuffix, dotGroupsStr]
      rw [hform, pnf_dot_decimal had (by
          intro hgnil
          rw [hgnil] at hg
          simp at hg) (le_of_eq hg.1) hg.2]
    · intro hgs
      subst hgs
      have hform : t = a := by
        rw [ht]
        simp [decSuffix, dotGroupsStr]
      rw [hform, pnf_integer hane had]
      simp [sepTokVal]

/-- C5 (amended): For every token matching /^\d{1,3}(,\d{3})+(\.\d+)?$/ (hypothesis:
    the matcher succeeds with groups a, gs, dec), both resolvers strip the grouping
    commas whenever the token carries a decimal dot part or at least two comma
    groups; the code reads a token with exactly one comma group and no dot
    ("1,234") with the comma as a decimal separator instead. -/
theorem C5_amended (t a : Str) (gs : List Str) (dec : Option Str)
    (h : cgParse t = some (a, gs, dec)) :
    ((2 ≤ gs.length ∨ dec ≠ none) → toNumberMaybe t = some (sepTokVal a gs dec)) ∧
    (match dec with
     | some d =>
        parseNumberAndFormat t =
          some ⟨sepTokVal a gs dec, decFmtGrouped d.length, d.length, true⟩
     | none =>
        (2 ≤ gs.length →
          parseNumberAndFormat t =
            some ⟨sepTokVal a gs dec, decFmtGrouped 0, 0, true⟩) ∧
        (∀ g, gs = [g] →
          toNumberMaybe t =
            some ((natOfDigits a : ℚ) + (natOfDigits g : ℚ) / 10 ^ g.length) ∧
          parseNumberAndFormat t =
            some ⟨(natOfDigits a : ℚ) + (natOfDigits g : ℚ) / 10 ^ g.length,
                  decFmt g.length, g.length, false⟩)) := by
  obtain ⟨ht, hane, halen, had, hgsne, hwg, hwd⟩ := cgParse_sound h
  refine ⟨fun hmulti => tnm_commaTok_strip h hmulti, ?_⟩
  cases dec with
  | some d =>
    obtain ⟨hdne, hdd⟩ := hwd d rfl
    show parseNumberAndFormat t =
      some ⟨sepTokVal a gs (some d), decFmtGrouped d.length, d.length, true⟩
    have hA : ∀ x ∈ a ++ commaGroupsStr gs, isDigitC x = true ∨ x = ',' := by
      intro x hx
      rcases List.mem_append.mp hx with hx | hx
      · exact Or.inl (had x hx)
      · exact mem_commaGroupsStr hwg x hx
    have hcomma : hasChar ',' (a ++ commaGroupsStr gs) = true := by
      rw [hasChar_append, hasChar_commaGroupsStr_of_ne hgsne]
      simp
    have hform : t = (a ++ commaGroupsStr gs) ++ '.' :: d := by
      rw [ht]
      simp [dotSuffix, List.append_assoc]
    have hrm : removeAll ',' (a ++ commaGroupsStr gs) = a ++ gs.flatten := by
      rw [removeAll_append, removeAll_eq_self (fun x hx => isDigitC_ne_comma (had x hx)),
        removeAll_commaGroupsStr hwg]
    rw [hform, pnf_dot_last hA hcomma hdne hdd, hrm]
    simp [sepTokVal]
  | none =>
    show (2 ≤ gs.length →
        parseNumberAndFormat t =
          some ⟨sepTokVal a gs none, decFmtGrouped 0, 0, true⟩) ∧
      (∀ g, gs = [g] →
        toNumberMaybe t =
          some ((natOfDigits a : ℚ) + (natOfDigits g : ℚ) / 10 ^ g.length) ∧
        parseNumberAndFormat t =
          some ⟨(natOfDigits a : ℚ) + (natOfDigits g : ℚ) / 10 ^ g.length,
                decFmt g.length, g.length, false⟩)
    refine ⟨?_, ?_⟩
    · intro hlen2
      obtain ⟨g1, g2, gs'', rfl⟩ : ∃ g1 g2 gs'', gs = g1 :: g2 :: gs'' := by
        cases gs with
        | nil => simp at hlen2
        | cons g1 gs' =>
          cases gs' with
          | nil => simp at hlen2
          | cons g2 gs'' => exact ⟨g1, g2, gs'', rfl⟩
      have hform : t = a ++ commaGroupsStr (g1 :: g2 :: gs'') := by
        rw [ht]
        simp [dotSuffix]
      rw [hform, pnf_comma_grouping_multi hane had hwg]
      simp [sepTokVal]
    · intro g hgs
      subst hgs
      have hg := hwg g (by simp)
      have hgne : g ≠ [] := by
        intro hgnil
        rw [hgnil] at hg
        simp at hg
      refine ⟨tnm_commaTok_single h, ?_⟩
      have hform : t = a ++ ',' :: g := by
        rw [ht]
        simp [dotSuffix, commaGroupsStr]
      rw [hform, pnf_comma_decimal had hgne (le_of_eq hg.1) hg.2]

/-- C6 (amended): parseNumberAndFormat implements last-separator-wins for mixed
    tokens — when the last-occurring separator occurs once with an all-digit
    tail and the rest of the token is digits and the other separator, the last
    separator is the decimal separator and the other is stripped as grouping.
    toNumberMaybe does not implement this rule: it resolves only its three
    canonical patterns and returns not-a-number on other mixed tokens such as
    "1234.567,89". -/
theorem C6_amended (A B : Str) :
    ((∀ x ∈ A, isDigitC x = true ∨ x = '.') → hasChar '.' A = true → B ≠ [] →
      (∀ x ∈ B, isDigitC x = true) →
      parseNumberAndFormat (A ++ ',' :: B) =
        some ⟨(natOfDigits (removeAll '.' A) : ℚ) + (natOfDigits B : ℚ) / 10 ^ B.length,
              decFmtGrouped B.length, B.length, true⟩) ∧
    ((∀ x ∈ A, isDigitC x = true ∨ x = ',') → hasChar ',' A = true → B ≠ [] →
      (∀ x ∈ B, isDigitC x = true) →
      parseNumberAndFormat (A ++ '.' :: B) =
        some ⟨(natOfDigits (removeAll ',' A) : ℚ) + (natOfDigits B : ℚ) / 10 ^ B.length,
              decFmtGrouped B.length, B.length, true⟩) :=
  ⟨fun hA hdot hBne hB => pnf_comma_last hA hdot hBne hB,
   fun hA hcomma hBne hB => pnf_dot_last hA hcomma hBne hB⟩

/-- C6 (witness): the amended rule evaluated at the token "1234.567,89" — the
    comma is the decimal separator, the dots are grouping, and the value is
    1234567.89 with two decimal digits. -/
theorem C6_amended_witness :
    parseNumberAndFormat (sl "1234.567,89") =
      some ⟨(natOfDigits (removeAll '.' (sl "1234.567")) : ℚ) +
              (natOfDigits (sl "89") : ℚ) / 10 ^ (sl "89").length,
            decFmtGrouped (sl "89").length, (sl "89").length, true⟩ ∧
    (natOfDigits (removeAll '.' (sl "1234.567")) : ℚ) +
        (natOfDigits (sl "89") : ℚ) / 10 ^ (sl "89").length = 123456789 / 100 := by
  constructor
  · exact (C6_amended (sl "1234.567") (sl "89")).1 (by decide) (by decide) (by decide)
      (by decide)
  · have h1 : natOfDigits (removeAll '.' (sl "1234.567")) = 1234567 := by decide
    have h2 : natOfDigits (sl "89") = 89 := by decide
    have h3 : (sl "89").length = 2 := by decide
    rw [h1, h2, h3]
    norm_num

/-- C6 (counterexample): the claim speaks of "the numeric resolver", but
    variant 1's resolver toNumberMaybe returns not-a-number on the claim's own
    example "1234.567,89" (both separators present), while variant 2's
    parseNumberAndFormat resolves it to 1234567.89. -/
theorem C6_counterexample :
    toNumberMaybe (sl "1234.567,89") = none ∧
    parseNumberAndFormat (sl "1234.567,89") =
      some ⟨(123456789 : ℚ) / 100, "#,##0.00", 2, true⟩ := by
  constructor
  · decide
  · have hform : sl "1234.567,89" = sl "1234.567" ++ ',' :: sl "89" := rfl
    rw [hform, pnf_comma_last (by decide) (by decide) (by decide) (by decide)]
    refine congrArg some ?_
    have h1 : natOfDigits (removeAll '.' (sl "1234.567")) = 1234567 := by decide
    have h2 : natOfDigits (sl "89") = 89 := by decide
    have h3 : (sl "89").length = 2 := by decide
    rw [h1, h2, h3]
    have hv : ((1234567 : ℕ) : ℚ) + ((89 : ℕ) : ℚ) / 10 ^ 2 = (123456789 : ℚ) / 100 := by
      norm_num
    rw [hv]
    rfl

/-- C4 (witness): the amended statement evaluated at "1.234,56" — dots stripped,
    comma read as decimal point, two decimal digits, grouping observed. -/
theorem C4_amended_witness :
    toNumberMaybe (sl "1.234,56") = some (sepTokVal (sl "1") [sl "234"] (some (sl "56"))) ∧
    parseNumberAndFormat (sl "1.234,56") =
      some ⟨sepTokVal (sl "1") [sl "234"] (some (sl "56")), decFmtGrouped 2, 2, true⟩ ∧
    sepTokVal (sl "1") [sl "234"] (some (sl "56")) = 123456 / 100 := by
  have h := C4_amended (sl "1.234,56") (sl "1") [sl "234"] (some (sl "56")) (by decide)
  refine ⟨h.1, h.2.1 (by simp), ?_⟩
  show (natOfDigits (sl "1" ++ [sl "234"].flatten) : ℚ) +
      (natOfDigits (sl "56") : ℚ) / 10 ^ (sl "56").length = 123456 / 100
  have h1 : natOfDigits (sl "1" ++ [sl "234"].flatten) = 1234 := by decide
  have h2 : natOfDigits (sl "56") = 56 := by decide
  have h3 : (sl "56").length = 2 := by decide
  rw [h1, h2, h3]
  norm_num

/-- C4 (counterexample): the claim demands that "1.234" resolve to 1234, but
    parseNumberAndFormat (variant 2's resolver) reads the dot of "1.234" as a
    decimal point and returns 1.234 with three decimal digits; only variant 1's
    toNumberMaybe returns 1234 there. -/
theorem C4_counterexample :
    regexDotGroups (sl "1.234") = true ∧
    toNumberMaybe (sl "1.234") = some ((1234 : ℕ) : ℚ) ∧
    parseNumberAndFormat (sl "1.234") =
      some ⟨(617 : ℚ) / 500, "0.000", 3, false⟩ ∧
    ((617 : ℚ) / 500 ≠ ((1234 : ℕ) : ℚ)) := by
  refine ⟨by decide, ?_, ?_, by norm_num⟩
  · have h := @tnm_dotTok (sl "1.234") (sl "1") [sl "234"] none (by decide)
    rw [h]
    refine congrArg some ?_
    show (natOfDigits (sl "1" ++ [sl "234"].flatten) : ℚ) = ((1234 : ℕ) : ℚ)
    have h1 : natOfDigits (sl "1" ++ [sl "234"].flatten) = 1234 := by decide
    rw [h1]
  · have hform : sl "1.234" = sl "1" ++ '.' :: sl "234" := rfl
    rw [hform, pnf_dot_decimal (by decide) (by decide) (by decide) (by decide)]
    refine congrArg some ?_
    have h1 : natOfDigits (sl "1") = 1 := by decide
    have h2 : natOfDigits (sl "234") = 234 := by decide
    have h3 : (sl "234").length = 3 := by decide
    rw [h1, h2, h3]
    have hv : ((1 : ℕ) : ℚ) + ((234 : ℕ) : ℚ) / 10 ^ 3 = (617 : ℚ) / 500 := by norm_num
    rw [hv]
    rfl

/-- C5 (witness): the amended statement evaluated at "1,234,567.89" — grouping
    commas stripped by both resolvers, value 1234567.89. -/
theorem C5_amended_witness :
    toNumberMaybe (sl "1,234,567.89") =
      some (sepTokVal (sl "1") [sl "234", sl "567"] (some (sl "89"))) ∧
    parseNumberAndFormat (sl "1,234,567.89") =
      some ⟨sepTokVal (sl "1") [sl "234", sl "567"] (some (sl "89")),
            decFmtGrouped 2, 2, true⟩ ∧
    sepTokVal (sl "1") [sl "234", sl "567"] (some (sl "89")) = 123456789 / 100 := by
  have h := C5_amended (sl "1,234,567.89") (sl "1") [sl "234", sl "567"] (some (sl "89"))
    (by decide)
  refine ⟨h.1 (by simp), h.2, ?_⟩
  show (natOfDigits (sl "1" ++ [sl "234", sl "567"].flatten) : ℚ) +
      (natOfDigits (sl "89") : ℚ) / 10 ^ (sl "89").length = 123456789 / 100
  have h1 : natOfDigits (sl "1" ++ [sl "234", sl "567"].flatten) = 1234567 := by decide
  have h2 : natOfDigits (sl "89") = 89 := by decide
  have h3 : (sl "89").length = 2 := by decide
  rw [h1, h2, h3]
  norm_num

/-- C5 (counterexample): the claim's example "1,234" does not resolve to 1234 —
    both resolvers read the single 3-digit comma group as a decimal comma and
    return 1.234. -/
theorem C5_counterexample :
    regexCommaGroups (sl "1,234") = true ∧
    toNumberMaybe (sl "1,234") = some ((617 : ℚ) / 500) ∧
    parseNumberAndFormat (sl "1,234") =
      some ⟨(617 : ℚ) / 500, "0.000", 3, false⟩ ∧
    ((617 : ℚ) / 500 ≠ ((1234 : ℕ) : ℚ)) := by
  have h1 : natOfDigits (sl "1") = 1 := by decide
  have h2 : natOfDigits (sl "234") = 234 := by decide
  have h3 : (sl "234").length = 3 := by decide
  have hv : ((1 : ℕ) : ℚ) + ((234 : ℕ) : ℚ) / 10 ^ 3 = (617 : ℚ) / 500 := by norm_num
  refine ⟨by decide, ?_, ?_, by norm_num⟩
  · have h := @tnm_commaTok_single (sl "1,234") (sl "1") (sl "234") (by decide)
    rw [h, h1, h2, h3, hv]
  · have hform : sl "1,234" = sl "1" ++ ',' :: sl "234" := rfl
    rw [hform, pnf_comma_decimal (by decide) (by decide) (by decide) (by decide)]
    rw [h1, h2, h3, hv]
    rfl

/-- Every successful parse's fmt is determined by its decimals and groupingUsed
    fields: grouped format when grouping was used, plain format otherwise. -/
theorem pnfBody_fmt {g : Bool} {s : Str} {p : ParsedNumber} (h : pnfBody g s = some p) :
    p.fmt = if p.groupingUsed then decFmtGrouped p.decimals else decFmt p.decimals := by
  unfold pnfBody at h
  dsimp only at h
  repeat' split at h
  all_goals try (exact Option.noConfusion h)
  all_goals (injection h with h; subst h; cases g <;> simp_all [decFmt, decFmtGrouped])

theorem parseNumberAndFormat_fmt {s : Str} {p : ParsedNumber}
    (h : parseNumberAndFormat s = some p) :
    p.fmt = if p.groupingUsed then decFmtGrouped p.decimals else decFmt p.decimals := by
  unfold parseNumberAndFormat at h
  dsimp only at h
  split at h
  · exact absurd h (by simp)
  · exact pnfBody_fmt h

theorem specMaxDecimals_cons (r : Str) (rs : List Str) :
    specMaxDecimals (r :: rs) =
      (match parseNumberAndFormat r with
       | some p => max p.decimals (specMaxDecimals rs)
       | none => specMaxDecimals rs) := by
  unfold specMaxDecimals
  cases hp : parseNumberAndFormat r <;> simp [List.filterMap_cons, hp]

theorem specAnyGrouping_cons (r : Str) (rs : List Str) :
    specAnyGrouping (r :: rs) =
      (match parseNumberAndFormat r with
       | some p => p.groupingUsed || specAnyGrouping rs
       | none => specAnyGrouping rs) := by
  unfold specAnyGrouping
  cases hp : parseNumberAndFormat r <;> simp [List.filterMap_cons, hp]

theorem colStats_acc (raws : List Str) (st : ColStats) :
    (raws.foldl stepStats st).maxDec = max st.maxDec (specMaxDecimals raws) ∧
    (raws.foldl stepStats st).anyGroup = (st.anyGroup || specAnyGrouping raws) := by
  induction raws generalizing st with
  | nil => simp [specMaxDecimals, specAnyGrouping]
  | cons r rs ih =>
    simp only [List.foldl_cons]
    obtain ⟨ih1, ih2⟩ := ih (stepStats st r)
    rw [ih1, ih2, specMaxDecimals_cons, specAnyGrouping_cons]
    cases hp : parseNumberAndFormat r with
    | none =>
      unfold stepStats
      rw [hp]
      exact ⟨rfl, rfl⟩
    | some p =>
      unfold stepStats
      rw [hp]
      dsimp only
      rw [max_assoc, Bool.or_assoc]
      exact ⟨rfl, rfl⟩

/-- C1 (amended): Each money/average-price/count data cell of the variant-2
    detail sheet is formatted with the format of its own row's parse (own
    decimal count, own grouping), not a per-column format.  Only the totals row
    receives a column-wide format: for a summed column, the decimal count is the
    maximum observed across the column's successfully parsed values, with
    grouping enabled iff grouping was observed in some row OR the column is a
    money column (money columns are always grouped in the total, even when no
    grouping was observed). -/
theorem C1_amended (hdr : String) (raws : List Str) (raw : Str) (p : ParsedNumber) :
    (parseNumberAndFormat raw = some p →
      (detV2MoneyCell raw).2 = some p.fmt ∧
      (detV2CountCell raw).2 = some p.fmt ∧
      p.fmt = (if p.groupingUsed then decFmtGrouped p.decimals else decFmt p.decimals)) ∧
    (colStats raws).maxDec = specMaxDecimals raws ∧
    (colStats raws).anyGroup = specAnyGrouping raws ∧
    applyTotalFmt hdr (colStats raws) =
      (if (specAnyGrouping raws || MONEY_HEADERS.contains hdr) = true
       then decFmtGrouped (specMaxDecimals raws)
       else decFmt (specMaxDecimals raws)) := by
  obtain ⟨hmax, hgrp⟩ := colStats_acc raws ⟨0, false⟩
  have hmax' : (colStats raws).maxDec = specMaxDecimals raws := by
    unfold colStats
    rw [hmax]
    simp
  have hgrp' : (colStats raws).anyGroup = specAnyGrouping raws := by
    unfold colStats
    rw [hgrp]
    simp
  refine ⟨?_, hmax', hgrp', ?_⟩
  · intro hp
    have hfmt := parseNumberAndFormat_fmt hp
    refine ⟨?_, ?_, hfmt⟩
    · unfold detV2MoneyCell
      rw [hp]
    · unfold detV2CountCell
      rw [hp, hfmt]
      cases hg : p.groupingUsed <;> simp [hg, decFmt, decFmtGrouped]
  · unfold applyTotalFmt
    rw [hmax', hgrp']
    cases hg : (specAnyGrouping raws || MONEY_HEADERS.contains hdr) <;>
      simp [hg, decFmt, decFmtGrouped]

/-- C1 (witness): the amended statement evaluated on the money column
    "I alt, kr" with rows ["5"] and the single cell "5". -/
theorem C1_amended_witness :
    (detV2MoneyCell (sl "5")).2 = some "0" ∧
    applyTotalFmt "I alt, kr" (colStats [sl "5"]) =
      (if (specAnyGrouping [sl "5"] || MONEY_HEADERS.contains "I alt, kr") = true
       then decFmtGrouped (specMaxDecimals [sl "5"])
       else decFmt (specMaxDecimals [sl "5"])) := by
  have h := C1_amended "I alt, kr" [sl "5"] (sl "5")
    ⟨(natOfDigits (sl "5") : ℚ), "0", 0, false⟩
  exact ⟨(h.1 (pnf_integer (by decide) (by decide))).1, h.2.2.2⟩

/-- C1 (counterexample): in the money column "I alt, kr" with rows "1,5" and
    "2,25", the first data cell is formatted "0.0" (its own parse: one decimal,
    no grouping) while the column total is formatted "#,##0.00" (max decimals
    over the column, grouping forced for a money column) — so the data cells do
    not carry one uniform column format equal to the max-decimals format, and
    the total's grouping is enabled without grouping having been observed. -/
theorem C1_counterexample :
    (detV2MoneyCell (sl "1,5")).2 = some "0.0" ∧
    (detV2MoneyCell (sl "2,25")).2 = some "0.00" ∧
    specAnyGrouping [sl "1,5", sl "2,25"] = false ∧
    applyTotalFmt "I alt, kr" (colStats [sl "1,5", sl "2,25"]) = "#,##0.00" ∧
    ("0.0" : String) ≠ "#,##0.00" := by
  refine ⟨?_, ?_, ?_, ?_, ?_⟩ <;> decide

/-- C2 (amended): variant 1's data loop keeps exactly the non-noise rows after
    the header, in source order; variant 2's data loop additionally drops any
    non-noise row that has no non-empty identity/value/day cell and is not a
    row whose only non-empty cell is its first. -/
theorem C2_amended (opts : ParseOpts) (headers : List Str) (rows : List (List Str)) :
    dataRows1 headers rows =
      (rows.filter (fun a => !isNoiseRow a)).map (buildRecord headers) ∧
    dataRows2 opts headers rows =
      (rows.filter (fun a => !isNoiseRow a && keep2 opts headers a)).map
        (buildRecord headers) := by
  induction rows with
  | nil => exact ⟨rfl, rfl⟩
  | cons arr rest ih =>
    obtain ⟨ih1, ih2⟩ := ih
    constructor
    · unfold dataRows1
      cases hn : isNoiseRow arr <;> simp [hn, List.filter_cons, ih1]
    · unfold dataRows2
      cases hn : isNoiseRow arr
      · cases hk : keep2 opts headers arr <;> simp [hn, hk, List.filter_cons, ih2]
      · simp [hn, List.filter_cons, ih2]

/-- C2 (witness): the amended statement evaluated on a one-row document under
    variant 2's detail options. -/
theorem C2_amended_witness :
    dataRows1 [sl "Øko-ID", sl "Område"] [[sl "", sl "x"]] =
      ([[sl "", sl "x"]].filter (fun a => !isNoiseRow a)).map
        (buildRecord [sl "Øko-ID", sl "Område"]) ∧
    dataRows2 detOpts [sl "Øko-ID", sl "Område"] [[sl "", sl "x"]] =
      ([[sl "", sl "x"]].filter
          (fun a => !isNoiseRow a && keep2 detOpts [sl "Øko-ID", sl "Område"] a)).map
        (buildRecord [sl "Øko-ID", sl "Område"]) :=
  C2_amended detOpts [sl "Øko-ID", sl "Område"] [[sl "", sl "x"]]

/-- C2 (counterexample): the row ["", "x"] under headers [Øko-ID, Område] is not
    a noise row, yet variant 2's data loop drops it (no identity/value/day cell
    is non-empty and its first cell is empty) while variant 1 keeps it — so the
    output row sequence is not "all rows after the header minus exactly the
    noise rows" for variant 2. -/
theorem C2_counterexample :
    isNoiseRow [sl "", sl "x"] = false ∧
    dataRows1 [sl "Øko-ID", sl "Område"] [[sl "", sl "x"]] =
      [buildRecord [sl "Øko-ID", sl "Område"] [sl "", sl "x"]] ∧
    dataRows2 detOpts [sl "Øko-ID", sl "Område"] [[sl "", sl "x"]] = [] := by
  refine ⟨?_, ?_, ?_⟩ <;> decide

/-- C3 (amended): the day columns appended after the fixed base columns are
    exactly the trimmed input headers that are bare one-or-two–digit numbers —
    kept in input order (not sorted) and not restricted to the range 1..31. -/
theorem C3_amended (headers : List Str) :
    (∀ x ∈ detDays headers, isDayHeader x = true) ∧
    (detDays headers).Sublist (headers.map jsTrim) ∧
    (∀ x ∈ headers.map jsTrim, isDayHeader x = true → x ∈ detDays headers) ∧
    DET_HEADERS_of headers = DET_BASE_HEADERS.map sl ++ detDays headers := by
  refine ⟨?_, ?_, ?_, rfl⟩
  · intro x hx
    exact (List.mem_filter.mp hx).2
  · exact List.filter_sublist _
  · intro x hx hday
    exact List.mem_filter.mpr ⟨hx, hday⟩

/-- C3 (witness): the amended statement evaluated on headers ["2", "1", "45"]. -/
theorem C3_amended_witness :
    isDayHeader (sl "2") = true ∧
    (detDays [sl "2", sl "1", sl "45"]).Sublist ([sl "2", sl "1", sl "45"].map jsTrim) :=
  ⟨(C3_amended [sl "2", sl "1", sl "45"]).1 (sl "2") (by decide),
   (C3_amended [sl "2", sl "1", sl "45"]).2.1⟩

/-- C3 (counterexample): with observed day headers ["2", "1", "45"], the code
    keeps them in input order and keeps "45" (outside 1..31); the claim's
    required column list (values 1..31 only, ascending) would be ["1", "2"]. -/
theorem C3_counterexample :
    detDays [sl "2", sl "1", sl "45"] = [sl "2", sl "1", sl "45"] ∧
    detDays [sl "2", sl "1", sl "45"] ≠ [sl "1", sl "2"] ∧
    (sl "45") ∈ detDays [sl "2", sl "1", sl "45"] := by
  refine ⟨?_, ?_, ?_⟩ <;> decide

theorem runningTotal_acc (raws : List Str) (acc : ℚ) :
    raws.foldl (fun a raw =>
      match toNumberMaybe raw with
      | some n => a + n
      | none => a) acc = acc + (raws.filterMap toNumberMaybe).sum := by
  induction raws generalizing acc with
  | nil => simp
  | cons r rs ih =>
    cases ht : toNumberMaybe r <;>
      simp [List.foldl_cons, List.filterMap_cons, ht, ih, add_assoc]

/-- C7 (amended): in variant 2, a money/average-price cell whose token fails
    numeric resolution keeps the original text when the token is non-empty, but
    an empty token yields an empty cell; in variant 1's J..P columns a failing
    token always yields an empty cell (the original text is discarded).  The
    code-computed running total of a variant-1 column is the arithmetic sum of
    exactly the successfully parsed values — failed cells contribute nothing. -/
theorem C7_amended (hdr : String) (raw : Str) (raws : List Str) :
    (parseNumberAndFormat raw = none →
      (detV2MoneyCell raw).1 = (if raw = [] then CellVal.empty else CellVal.text raw)) ∧
    (toNumberMaybe raw = none → (detV1JPCell hdr raw).1 = CellVal.empty) ∧
    runningTotal raws = (raws.filterMap toNumberMaybe).sum := by
  refine ⟨?_, ?_, ?_⟩
  · intro hp
    unfold detV2MoneyCell
    rw [hp]
  · intro ht
    unfold detV1JPCell
    rw [ht]
  · unfold runningTotal
    rw [runningTotal_acc]
    simp

/-- C7 (witness): the amended statement evaluated at the unresolvable token
    "abc" for a money column. -/
theorem C7_amended_witness :
    (detV2MoneyCell (sl "abc")).1 =
      (if sl "abc" = [] then CellVal.empty else CellVal.text (sl "abc")) ∧
    (detV1JPCell "I alt, kr" (sl "abc")).1 = CellVal.empty := by
  have h := C7_amended "I alt, kr" (sl "abc") []
  exact ⟨h.1 (by decide), h.2.1 (by decide)⟩

/-- C7 (counterexample): the token "abc" in a variant-1 J..P money column fails
    resolution and the visible cell is written as an empty cell, not the
    original text; and in variant 2 an empty token also yields an empty cell —
    refuting "the output cell receives the original text unchanged (never
    null)". -/
theorem C7_counterexample :
    toNumberMaybe (sl "abc") = none ∧
    (detV1JPCell "I alt, kr" (sl "abc")).1 = CellVal.empty ∧
    CellVal.empty ≠ CellVal.text (sl "abc") ∧
    parseNumberAndFormat [] = none ∧
    (detV2MoneyCell []).1 = CellVal.empty := by
  refine ⟨?_, ?_, ?_, ?_, ?_⟩ <;> decide

theorem argmaxFold_spec (score : ℕ → ℤ) (hpos : ∀ i, 0 ≤ score i) :
    ∀ n : ℕ, 0 < n →
    ∃ k : ℕ, k < n ∧
      (List.range n).foldl
        (fun best i => if score i > best.2 then ((i : ℤ), score i) else best) (-1, -1) =
        ((k : ℤ), score k) ∧
      (∀ j < n, score j ≤ score k) ∧ (∀ j < k, score j < score k) := by
  intro n
  induction n with
  | zero => omega
  | succ m ih =>
    intro _
    rw [List.range_succ, List.foldl_append, List.foldl_cons, List.foldl_nil]
    by_cases hm : 0 < m
    · obtain ⟨k, hk, hr, hmax, hfirst⟩ := ih hm
      rw [hr]
      by_cases hgt : score m > ((k : ℤ), score k).2
      · rw [if_pos hgt]
        refine ⟨m, by omega, rfl, ?_, ?_⟩
        · intro j hj
          rcases Nat.lt_succ_iff_lt_or_eq.mp hj with h | h
          · exact le_of_lt (lt_of_le_of_lt (hmax j h) hgt)
          · subst h; exact le_refl _
        · intro j hj
          exact lt_of_le_of_lt (hmax j hj) hgt
      · rw [if_neg hgt]
        refine ⟨k, by omega, rfl, ?_, hfirst⟩
        intro j hj
        rcases Nat.lt_succ_iff_lt_or_eq.mp hj with h | h
        · exact hmax j h
        · subst h
          simp only [gt_iff_lt, not_lt] at hgt
          exact hgt
    · have hm0 : m = 0 := by omega
      subst hm0
      simp only [List.range_zero, List.nil_append, List.foldl_cons, List.foldl_nil]
      rw [if_pos (by have := hpos 0; simp; omega)]
      refine ⟨0, by omega, rfl, ?_, fun j hj => by omega⟩
      intro j hj
      have hj0 : j = 0 := by omega
      subst hj0
      exact le_refl _

theorem findHeaderIndex_spec (rows : List (List Str)) (expect : List Str) (hne : rows ≠ []) :
    ∃ k : ℕ, k < min rows.length 12 ∧
      findHeaderIndex rows expect = ((k : ℤ), (rowScore expect (rows.getD k []) : ℤ)) ∧
      (∀ j < min rows.length 12,
        rowScore expect (rows.getD j []) ≤ rowScore expect (rows.getD k [])) ∧
      (∀ j < k, rowScore expect (rows.getD j []) < rowScore expect (rows.getD k [])) := by
  have hn : 0 < min rows.length 12 := by
    have : 0 < rows.length := List.length_pos.mpr hne
    omega
  obtain ⟨k, hk, hr, hmax, hfirst⟩ :=
    argmaxFold_spec (fun i => (rowScore expect (rows.getD i []) : ℤ))
      (fun i => Int.ofNat_nonneg _) (min rows.length 12) hn
  refine ⟨k, hk, hr, ?_, ?_⟩
  · intro j hj
    exact_mod_cast hmax j hj
  · intro j hj
    exact_mod_cast hfirst j hj

theorem splitRows_ne_nil (raw : Str) (d : Char) : splitRows raw d ≠ [] := by
  unfold splitRows
  intro hcontra
  rw [List.map_eq_nil_iff] at hcontra
  exact splitOnChar_ne_nil _ _ hcontra

theorem splitRows_take_ne_nil (raw : Str) (d : Char) : (splitRows raw d).take 12 ≠ [] := by
  intro hcontra
  rw [List.take_eq_nil_iff] at hcontra
  rcases hcontra with h | h
  · exact absurd h (by omega)
  · exact splitRows_ne_nil raw d h

/-- The first-12-rows window that the winning delimiter's header scan ranges over. -/
def bestRows (raw : Str) (expect : List Str) : List (List Str) :=
  (splitRows (stripBOM raw) (chooseDelimiter raw expect).delim).take 12

/-- The scan-window row score of row j for the winning delimiter. -/
def scanScore (raw : Str) (expect : List Str) (j : ℕ) : ℕ :=
  rowScore expect ((bestRows raw expect).getD j [])

/-- The number of rows the header scan considers for the winning delimiter. -/
def scanLimit (raw : Str) (expect : List Str) : ℕ :=
  min (bestRows raw expect).length 12

theorem chooseDelimiter_cases (raw : Str) (expect : List Str)
    (r1 r2 r3 : List (List Str)) (i1 i2 i3 s1 s2 s3 : ℤ)
    (h1 : parseWithDelimiter (stripBOM raw) ';' expect = (r1, i1, s1))
    (h2 : parseWithDelimiter (stripBOM raw) ',' expect = (r2, i2, s2))
    (h3 : parseWithDelimiter (stripBOM raw) '\t' expect = (r3, i3, s3))
    (hs1 : 0 ≤ s1) :
    chooseDelimiter raw expect =
      (if s3 > (if s2 > s1 then s2 else s1)
       then ⟨r3, i3, s3, '\t'⟩
       else if s2 > s1 then ⟨r2, i2, s2, ','⟩ else ⟨r1, i1, s1, ';'⟩) := by
  unfold chooseDelimiter delimCandidates
  simp only [List.foldl_cons, List.foldl_nil, h1, h2, h3]
  rw [if_pos (by omega : s1 > (-1 : ℤ))]
  by_cases hc2 : s2 > s1
  · simp only [if_pos hc2]
  · simp only [if_neg hc2]

theorem C8_branch (raw : Str) (expect : List Str) (dsel : Char) (ksel : ℕ)
    (hb' : chooseDelimiter raw expect =
      ⟨splitRows (stripBOM raw) dsel, (ksel : ℤ),
       (rowScore expect (((splitRows (stripBOM raw) dsel).take 12).getD ksel []) : ℤ), dsel⟩)
    (hksel : ksel < min ((splitRows (stripBOM raw) dsel).take 12).length 12)
    (hfsel : findHeaderIndex ((splitRows (stripBOM raw) dsel).take 12) expect =
      ((ksel : ℤ),
       (rowScore expect (((splitRows (stripBOM raw) dsel).take 12).getD ksel []) : ℤ)))
    (hmaxsel : ∀ j < min ((splitRows (stripBOM raw) dsel).take 12).length 12,
      rowScore expect (((splitRows (stripBOM raw) dsel).take 12).getD j []) ≤
        rowScore expect (((splitRows (stripBOM raw) dsel).take 12).getD ksel []))
    (hfirstsel : ∀ j < ksel,
      rowScore expect (((splitRows (stripBOM raw) dsel).take 12).getD j []) <
        rowScore expect (((splitRows (stripBOM raw) dsel).take 12).getD ksel [])) :
    (chooseDelimiter raw expect).rows =
      splitRows (stripBOM raw) (chooseDelimiter raw expect).delim ∧
    ((chooseDelimiter raw expect).headerIdx, (chooseDelimiter raw expect).score) =
      findHeaderIndex (bestRows raw expect) expect ∧
    headerIdxOf raw expect < scanLimit raw expect ∧
    (chooseDelimiter raw expect).score =
      (scanScore raw expect (headerIdxOf raw expect) : ℤ) ∧
    (∀ j < scanLimit raw expect,
      scanScore raw expect j ≤ scanScore raw expect (headerIdxOf raw expect)) ∧
    (∀ j < headerIdxOf raw expect,
      scanScore raw expect j < scanScore raw expect (headerIdxOf raw expect)) ∧
    ((chooseDelimiter raw expect).score ≤ 0 → headerIdxOf raw expect = 0) := by
  have hho : headerIdxOf raw expect = ksel := by
    unfold headerIdxOf
    rw [hb']
    simp
  have hbr : bestRows raw expect = (splitRows (stripBOM raw) dsel).take 12 := by
    unfold bestRows
    rw [hb']
  have hsc : ∀ j, scanScore raw expect j =
      rowScore expect (((splitRows (stripBOM raw) dsel).take 12).getD j []) := by
    intro j
    unfold scanScore
    rw [hbr]
  have hsl : scanLimit raw expect = min ((splitRows (stripBOM raw) dsel).take 12).length 12 := by
    unfold scanLimit
    rw [hbr]
  refine ⟨by rw [hb'], ?_, ?_, ?_, ?_, ?_, ?_⟩
  · rw [hb', hbr, hfsel]
  · rw [hho, hsl]
    exact hksel
  · rw [hb', hho, hsc ksel]
  · intro j hj
    rw [hsl] at hj
    rw [hsc j, hsc (headerIdxOf raw expect), hho]
    exact hmaxsel j hj
  · intro j hj
    rw [hho] at hj
    rw [hsc j, hsc (headerIdxOf raw expect), hho]
    exact hfirstsel j hj
  · intro hz
    rw [hb'] at hz
    dsimp only at hz
    have hz' : rowScore expect (((splitRows (stripBOM raw) dsel).take 12).getD ksel []) = 0 := by
      omega
    rw [hho]
    by_contra hk0
    have hkpos : 0 < ksel := by omega
    have := hfirstsel 0 hkpos
    omega


/-- C8: Shape detection tries the delimiters ';', ',', '\t' in that fixed order;
    for each it scores each of the first 12 rows by the count of expected labels
    matched under case- and comma-insensitive comparison; it keeps the attempt
    with the strictly highest score (ties keeping the earlier delimiter, and
    within an attempt the first row attaining the maximal row score); and the
    resulting header row index is total — in particular when no row of the
    winning attempt scores above zero it is 0. -/
theorem C8_shape_detection (raw : Str) (expect : List Str) :
    ((chooseDelimiter raw expect).delim = ';' ∨ (chooseDelimiter raw expect).delim = ',' ∨
      (chooseDelimiter raw expect).delim = '\t') ∧
    (chooseDelimiter raw expect).rows =
      splitRows (stripBOM raw) (chooseDelimiter raw expect).delim ∧
    ((chooseDelimiter raw expect).headerIdx, (chooseDelimiter raw expect).score) =
      findHeaderIndex (bestRows raw expect) expect ∧
    (∀ d ∈ delimCandidates, delimScore raw expect d ≤ (chooseDelimiter raw expect).score) ∧
    ((chooseDelimiter raw expect).delim = ',' →
      delimScore raw expect ';' < delimScore raw expect ',') ∧
    ((chooseDelimiter raw expect).delim = '\t' →
      delimScore raw expect ';' < delimScore raw expect '\t' ∧
      delimScore raw expect ',' < delimScore raw expect '\t') ∧
    headerIdxOf raw expect < scanLimit raw expect ∧
    (chooseDelimiter raw expect).score =
      (scanScore raw expect (headerIdxOf raw expect) : ℤ) ∧
    (∀ j < scanLimit raw expect,
      scanScore raw expect j ≤ scanScore raw expect (headerIdxOf raw expect)) ∧
    (∀ j < headerIdxOf raw expect,
      scanScore raw expect j < scanScore raw expect (headerIdxOf raw expect)) ∧
    ((chooseDelimiter raw expect).score ≤ 0 → headerIdxOf raw expect = 0) := by
  obtain ⟨k1, hk1, hf1, hmax1, hfirst1⟩ :=
    findHeaderIndex_spec ((splitRows (stripBOM raw) ';').take 12) expect
      (splitRows_take_ne_nil _ _)
  obtain ⟨k2, hk2, hf2, hmax2, hfirst2⟩ :=
    findHeaderIndex_spec ((splitRows (stripBOM raw) ',').take 12) expect
      (splitRows_take_ne_nil _ _)
  obtain ⟨k3, hk3, hf3, hmax3, hfirst3⟩ :=
    findHeaderIndex_spec ((splitRows (stripBOM raw) '\t').take 12) expect
      (splitRows_take_ne_nil _ _)
  have hp1 : parseWithDelimiter (stripBOM raw) ';' expect =
      (splitRows (stripBOM raw) ';', (k1 : ℤ),
        (rowScore expect (((splitRows (stripBOM raw) ';').take 12).getD k1 []) : ℤ)) := by
    simp only [parseWithDelimiter]
    rw [hf1]
  have hp2 : parseWithDelimiter (stripBOM raw) ',' expect =
      (splitRows (stripBOM raw) ',', (k2 : ℤ),
        (rowScore expect (((splitRows (stripBOM raw) ',').take 12).getD k2 []) : ℤ)) := by
    simp only [parseWithDelimiter]
    rw [hf2]
  have hp3 : parseWithDelimiter (stripBOM raw) '\t' expect =
      (splitRows (stripBOM raw) '\t', (k3 : ℤ),
        (rowScore expect (((splitRows (stripBOM raw) '\t').take 12).getD k3 []) : ℤ)) := by
    simp only [parseWithDelimiter]
    rw [hf3]
  have hds1 : delimScore raw expect ';' =
      (rowScore expect (((splitRows (stripBOM raw) ';').take 12).getD k1 []) : ℤ) := by
    unfold delimScore
    rw [hp1]
  have hds2 : delimScore raw expect ',' =
      (rowScore expect (((splitRows (stripBOM raw) ',').take 12).getD k2 []) : ℤ) := by
    unfold delimScore
    rw [hp2]
  have hds3 : delimScore raw expect '\t' =
      (rowScore expect (((splitRows (stripBOM raw) '\t').take 12).getD k3 []) : ℤ) := by
    unfold delimScore
    rw [hp3]
  have hb := chooseDelimiter_cases raw expect _ _ _ _ _ _ _ _ _ hp1 hp2 hp3
    (Int.ofNat_nonneg _)
  set q1 : ℤ := (rowScore expect (((splitRows (stripBOM raw) ';').take 12).getD k1 []) : ℤ)
  set q2 : ℤ := (rowScore expect (((splitRows (stripBOM raw) ',').take 12).getD k2 []) : ℤ)
  set q3 : ℤ := (rowScore expect (((splitRows (stripBOM raw) '\t').take 12).getD k3 []) : ℤ)
  by_cases hc2 : q2 > q1
  · by_cases hc3 : q3 > q2
    · have hb' : chooseDelimiter raw expect =
          ⟨splitRows (stripBOM raw) '\t', (k3 : ℤ), q3, '\t'⟩ := by
        rw [hb, if_pos hc2, if_pos hc3]
      have hsc : (chooseDelimiter raw expect).score = q3 := by rw [hb']
      have hdl : (chooseDelimiter raw expect).delim = '\t' := by rw [hb']
      obtain ⟨p1, p2, p3, p4, p5, p6, p7⟩ :=
        C8_branch raw expect '\t' k3 hb' hk3 hf3 hmax3 hfirst3
      refine ⟨Or.inr (Or.inr hdl), p1, p2, ?_, ?_, ?_, p3, p4, p5, p6, p7⟩
      · intro d hd
        rw [hsc]
        rcases List.mem_cons.mp hd with rfl | hd
        · rw [hds1]; omega
        rcases List.mem_cons.mp hd with rfl | hd
        · rw [hds2]; omega
        rcases List.mem_cons.mp hd with rfl | hd
        · rw [hds3]
        · simp at hd
      · intro h
        rw [hdl] at h
        exact absurd h (by decide)
      · intro _
        rw [hds1, hds2, hds3]
        exact ⟨by omega, by omega⟩
    · have hb' : chooseDelimiter raw expect =
          ⟨splitRows (stripBOM raw) ',', (k2 : ℤ), q2, ','⟩ := by
        rw [hb, if_pos hc2, if_neg hc3, if_pos hc2]
      have hsc : (chooseDelimiter raw expect).score = q2 := by rw [hb']
      have hdl : (chooseDelimiter raw expect).delim = ',' := by rw [hb']
      obtain ⟨p1, p2, p3, p4, p5, p6, p7⟩ :=
        C8_branch raw expect ',' k2 hb' hk2 hf2 hmax2 hfirst2
      refine ⟨Or.inr (Or.inl hdl), p1, p2, ?_, ?_, ?_, p3, p4, p5, p6, p7⟩
      · intro d hd
        rw [hsc]
        rcases List.mem_cons.mp hd with rfl | hd
        · rw [hds1]; omega
        rcases List.mem_cons.mp hd with rfl | hd
        · rw [hds2]
        rcases List.mem_cons.mp hd with rfl | hd
        · rw [hds3]; omega
        · simp at hd
      · intro _
        rw [hds1, hds2]
        omega
      · intro h
        rw [hdl] at h
        exact absurd h (by decide)
  · by_cases hc3 : q3 > q1
    · have hb' : chooseDelimiter raw expect =
          ⟨splitRows (stripBOM raw) '\t', (k3 : ℤ), q3, '\t'⟩ := by
        rw [hb, if_neg hc2, if_pos hc3]
      have hsc : (chooseDelimiter raw expect).score = q3 := by rw [hb']
      have hdl : (chooseDelimiter raw expect).delim = '\t' := by rw [hb']
      obtain ⟨p1, p2, p3, p4, p5, p6, p7⟩ :=
        C8_branch raw expect '\t' k3 hb' hk3 hf3 hmax3 hfirst3
      refine ⟨Or.inr (Or.inr hdl), p1, p2, ?_, ?_, ?_, p3, p4, p5, p6, p7⟩
      · intro d hd
        rw [hsc]
        rcases List.mem_cons.mp hd with rfl | hd
        · rw [hds1]; omega
        rcases List.mem_cons.mp hd with rfl | hd
        · rw [hds2]; omega
        rcases List.mem_cons.mp hd with rfl | hd
        · rw [hds3]
        · simp at hd
      · intro h
        rw [hdl] at h
        exact absurd h (by decide)
      · intro _
        rw [hds1, hds2, hds3]
        exact ⟨by omega, by omega⟩
    · have hb' : chooseDelimiter raw expect =
          ⟨splitRows (stripBOM raw) ';', (k1 : ℤ), q1, ';'⟩ := by
        rw [hb, if_neg hc2, if_neg hc3, if_neg hc2]
      have hsc : (chooseDelimiter raw expect).score = q1 := by rw [hb']
      have hdl : (chooseDelimiter raw expect).delim = ';' := by rw [hb']
      obtain ⟨p1, p2, p3, p4, p5, p6, p7⟩ :=
        C8_branch raw expect ';' k1 hb' hk1 hf1 hmax1 hfirst1
      refine ⟨Or.inl hdl, p1, p2, ?_, ?_, ?_, p3, p4, p5, p6, p7⟩
      · intro d hd
        rw [hsc]
        rcases List.mem_cons.mp hd with rfl | hd
        · rw [hds1]
        rcases List.mem_cons.mp hd with rfl | hd
        · rw [hds2]; omega
        rcases List.mem_cons.mp hd with rfl | hd
        · rw [hds3]; omega
        · simp at hd
      · intro h
        rw [hdl] at h
        exact absurd h (by decide)
      · intro h
        rw [hdl] at h
        exact absurd h (by decide)

theorem C8_shape_detection_witness :
    headerIdxOf (sl "a;b\nKontrakt;Position;x\np;q") (SAP_HEADERS.map sl) <
      scanLimit (sl "a;b\nKontrakt;Position;x\np;q") (SAP_HEADERS.map sl) :=
  (C8_shape_detection (sl "a;b\nKontrakt;Position;x\np;q") (SAP_HEADERS.map sl)).2.2.2.2.2.2.1

/-- C9: readCsvText returns the inline csv unchanged whenever a non-empty
    string is supplied — independently of the fetch oracle, so no network
    access is observable even when a url is also present; it returns the
    empty string when neither csv nor url is supplied (and when either is
    supplied but empty, with no url to fall back on); and it signals an error
    exactly when a non-empty url is consulted and the response is not ok,
    with the fetch-failure message. -/
theorem C9_reader_behavior (c u : Str) (url : Option Str) (f g : Str → FetchRes) :
    (c ≠ [] → readCsvText (some c) url f = Except.ok c ∧
      readCsvText (some c) url f = readCsvText (some c) url g) ∧
    readCsvText none none f = Except.ok [] ∧
    readCsvText (some []) none f = Except.ok [] ∧
    readCsvText none (some []) f = Except.ok [] ∧
    (u ≠ [] → readCsvText none (some u) f =
      (if (f u).ok then Except.ok (f u).text
       else Except.error (fetchErrMsg u (f u).status))) ∧
    ((∃ e, readCsvText none (some u) f = Except.error e) ↔
      (u ≠ [] ∧ (f u).ok = false)) := by
  refine ⟨?_, by simp [readCsvText, readCsvTextUrl],
    by simp [readCsvText, readCsvTextUrl],
    by simp [readCsvText, readCsvTextUrl], ?_, ?_⟩
  · intro hc
    constructor <;> simp [readCsvText, hc]
  · intro hu
    simp [readCsvText, readCsvTextUrl, hu]
  · constructor
    · rintro ⟨e, he⟩
      by_cases hu : u = []
      · subst hu
        simp [readCsvText, readCsvTextUrl] at he
      · refine ⟨hu, ?_⟩
        simp only [readCsvText, readCsvTextUrl, if_neg hu] at he
        by_cases hok : (f u).ok
        · rw [if_pos hok] at he
          exact Except.noConfusion he
        · simpa using hok
    · rintro ⟨hu, hok⟩
      exact ⟨fetchErrMsg u (f u).status, by
        simp [readCsvText, readCsvTextUrl, hu, hok]⟩

theorem C9_reader_behavior_witness :
    ((sl "a") ≠ [] ∧
      readCsvText (some (sl "a")) (some (sl "u"))
        (fun _ => FetchRes.mk false 404 []) = Except.ok (sl "a")) ∧
    ((sl "u") ≠ [] ∧
      (∃ e, readCsvText none (some (sl "u"))
        (fun _ => FetchRes.mk false 404 []) = Except.error e)) :=
  ⟨⟨by decide,
    ((C9_reader_behavior (sl "a") (sl "u") (some (sl "u"))
      (fun _ => FetchRes.mk false 404 [])
      (fun _ => FetchRes.mk true 200 [])).1 (by decide)).1⟩,
   ⟨by decide,
    (C9_reader_behavior (sl "a") (sl "u") (some (sl "u"))
      (fun _ => FetchRes.mk false 404 [])
      (fun _ => FetchRes.mk true 200 [])).2.2.2.2.2.mpr ⟨by decide, rfl⟩⟩⟩

theorem rowSpan_fst_of_mem {r c1 c2 : ℕ} {w : CellRef} (h : w ∈ rowSpan r c1 c2) :
    w.1 = r := by
  simp only [rowSpan, List.mem_map] at h
  obtain ⟨c, _, hc⟩ := h
  rw [← hc]

theorem rowSpan_mem_left {r c1 c2 : ℕ} (h : c1 ≤ c2) : (r, c1) ∈ rowSpan r c1 c2 := by
  simp only [rowSpan, List.mem_map]
  exact ⟨c1, List.mem_range'_1.mpr ⟨le_refl _, by omega⟩, rfl⟩

theorem rowSpan_mem_col {r c1 c2 c : ℕ} (h1 : c1 ≤ c) (h2 : c ≤ c2) :
    (r, c) ∈ rowSpan r c1 c2 := by
  simp only [rowSpan, List.mem_map]
  exact ⟨c, List.mem_range'_1.mpr ⟨h1, by omega⟩, rfl⟩

theorem dataWrites_fst_of_mem {n nCols : ℕ} {w : CellRef} (h : w ∈ dataWrites n nCols) :
    HEADER_ROW_INDEX + 1 ≤ w.1 := by
  simp only [dataWrites, List.mem_flatten, List.mem_map] at h
  obtain ⟨l, ⟨k, _, hl⟩, hw⟩ := h
  rw [← hl] at hw
  rw [rowSpan_fst_of_mem hw]
  omega

theorem dataWrites_mem {n nCols k : ℕ} (hk : k < n) (hc : 1 ≤ nCols) :
    (HEADER_ROW_INDEX + 1 + k, 1) ∈ dataWrites n nCols := by
  simp only [dataWrites, List.mem_flatten, List.mem_map]
  exact ⟨rowSpan (HEADER_ROW_INDEX + 1 + k) 1 nCols,
    ⟨k, List.mem_range.mpr hk, rfl⟩, rowSpan_mem_left hc⟩

theorem addBordersWrites_fst_of_mem {r1 r2 c1 c2 : ℕ} {w : CellRef}
    (h : w ∈ addBordersWrites r1 r2 c1 c2) : r1 ≤ w.1 := by
  simp only [addBordersWrites, List.mem_flatten, List.mem_map] at h
  obtain ⟨l, ⟨r, hr, hl⟩, hw⟩ := h
  rw [← hl] at hw
  rw [rowSpan_fst_of_mem hw]
  exact (List.mem_range'_1.mp hr).1

theorem writeSumFormulasWrites_fst_of_mem {totalRow : ℕ} {cols : List ℕ} {w : CellRef}
    (h : w ∈ writeSumFormulasWrites totalRow cols) : w.1 = totalRow := by
  simp only [writeSumFormulasWrites, List.mem_append, List.mem_map] at h
  rcases h with ⟨c, _, hc⟩ | h
  · rw [← hc]
  · exact rowSpan_fst_of_mem h

theorem writeFooterWrites_fst_of_mem {c1 c2 afterRow : ℕ} {w : CellRef}
    (h : w ∈ writeFooterWrites c1 c2 afterRow) : w.1 = afterRow + 2 :=
  rowSpan_fst_of_mem h

theorem setTitleWrites_fst_of_mem {t : Str} {tc : ℕ} {w : CellRef}
    (h : w ∈ setTitleWrites t tc) : w.1 = TITLE_ROW_INDEX := by
  unfold setTitleWrites at h
  split at h
  · exact absurd h (List.not_mem_nil _)
  · exact rowSpan_fst_of_mem h

theorem writeHeaderWrites_fst_of_mem {nL : ℕ} {w : CellRef}
    (h : w ∈ writeHeaderWrites nL) : w.1 = HEADER_ROW_INDEX :=
  rowSpan_fst_of_mem h

theorem sapWrites1_fst_ne_two {title : Str} {n : ℕ} {w : CellRef}
    (h : w ∈ sapWrites1 title n) : w.1 ≠ SUBTITLE_ROW_INDEX := by
  simp only [sapWrites1, List.mem_append] at h
  rcases h with ((h | h) | h) | h
  · rw [setTitleWrites_fst_of_mem h]; decide
  · rw [writeHeaderWrites_fst_of_mem h]; decide
  · have := dataWrites_fst_of_mem h
    unfold HEADER_ROW_INDEX at this
    unfold SUBTITLE_ROW_INDEX
    omega
  · split at h
    · simp only [List.mem_append] at h
      rcases h with (h | h) | h
      · have := addBordersWrites_fst_of_mem h
        unfold HEADER_ROW_INDEX at this
        unfold SUBTITLE_ROW_INDEX
        omega
      · simp only [List.mem_singleton] at h
        rw [h]
        unfold HEADER_ROW_INDEX SUBTITLE_ROW_INDEX
        omega
      · have := writeFooterWrites_fst_of_mem h
        unfold HEADER_ROW_INDEX at this
        unfold SUBTITLE_ROW_INDEX
        omega
    · have := writeFooterWrites_fst_of_mem h
      unfold HEADER_ROW_INDEX at this
      unfold SUBTITLE_ROW_INDEX
      omega

theorem sapWrites2_fst_ne_two {title : Str} {n : ℕ} {w : CellRef}
    (h : w ∈ sapWrites2 title n) : w.1 ≠ SUBTITLE_ROW_INDEX := by
  simp only [sapWrites2, List.mem_append] at h
  rcases h with ((h | h) | h) | h
  · rw [setTitleWrites_fst_of_mem h]; decide
  · rw [writeHeaderWrites_fst_of_mem h]; decide
  · have := dataWrites_fst_of_mem h
    unfold HEADER_ROW_INDEX at this
    unfold SUBTITLE_ROW_INDEX
    omega
  · split at h
    · simp only [List.mem_append] at h
      rcases h with ((h | h) | h) | h
      · have := addBordersWrites_fst_of_mem h
        unfold HEADER_ROW_INDEX at this
        unfold SUBTITLE_ROW_INDEX
        omega
      · have := writeSumFormulasWrites_fst_of_mem h
        unfold HEADER_ROW_INDEX at this
        unfold SUBTITLE_ROW_INDEX
        omega
      · simp only [List.mem_singleton] at h
        rw [h]
        unfold HEADER_ROW_INDEX SUBTITLE_ROW_INDEX
        omega
      · have := writeFooterWrites_fst_of_mem h
        unfold HEADER_ROW_INDEX at this
        unfold SUBTITLE_ROW_INDEX
        omega
    · have := writeFooterWrites_fst_of_mem h
      unfold HEADER_ROW_INDEX at this
      unfold SUBTITLE_ROW_INDEX
      omega

/-- C10: No cell write of the SAP sheet (either variant) ever touches the
    subtitle row (row 2): setSubtitle is invoked only for the detail sheet,
    where a detected non-empty subtitle does land on row 2; meanwhile the SAP
    sheet's title (when non-empty), header, data, totals and footer rows are
    all written as usual. -/
theorem C10_sap_subtitle_frame (title subtitle : Str) (nCols n : ℕ)
    (hcols : 1 ≤ nCols) :
    (∀ w ∈ sapWrites1 title n, w.1 ≠ SUBTITLE_ROW_INDEX) ∧
    (∀ w ∈ sapWrites2 title n, w.1 ≠ SUBTITLE_ROW_INDEX) ∧
    (title ≠ [] → (TITLE_ROW_INDEX, 1) ∈ sapWrites1 title n ∧
      (TITLE_ROW_INDEX, 1) ∈ sapWrites2 title n) ∧
    ((HEADER_ROW_INDEX, 1) ∈ sapWrites1 title n ∧
      (HEADER_ROW_INDEX, 1) ∈ sapWrites2 title n) ∧
    (∀ k < n, (HEADER_ROW_INDEX + 1 + k, 1) ∈ sapWrites1 title n ∧
      (HEADER_ROW_INDEX + 1 + k, 1) ∈ sapWrites2 title n) ∧
    (1 ≤ n → (HEADER_ROW_INDEX + n + 1, 8) ∈ sapWrites1 title n ∧
      (HEADER_ROW_INDEX + n + 1, 8) ∈ sapWrites2 title n) ∧
    (1 ≤ n → (HEADER_ROW_INDEX + n + 1 + 2, 1) ∈ sapWrites1 title n ∧
      (HEADER_ROW_INDEX + n + 1 + 2, 1) ∈ sapWrites2 title n) ∧
    (n = 0 → (HEADER_ROW_INDEX + 2, 1) ∈ sapWrites1 title n ∧
      (HEADER_ROW_INDEX + 2, 1) ∈ sapWrites2 title n) ∧
    (subtitle ≠ [] →
      (SUBTITLE_ROW_INDEX, 1) ∈ detWrites2 title subtitle nCols n) := by
  refine ⟨fun w h => sapWrites1_fst_ne_two h, fun w h => sapWrites2_fst_ne_two h,
    ?_, ?_, ?_, ?_, ?_, ?_, ?_⟩
  · intro ht
    constructor
    · simp only [sapWrites1, List.mem_append]
      left; left; left
      unfold setTitleWrites
      rw [if_neg ht]
      exact rowSpan_mem_left (by omega)
    · simp only [sapWrites2, List.mem_append]
      left; left; left
      unfold setTitleWrites
      rw [if_neg ht]
      exact rowSpan_mem_left (by omega)
  · constructor
    · simp only [sapWrites1, List.mem_append]
      left; left; right
      exact rowSpan_mem_left (by omega)
    · simp only [sapWrites2, List.mem_append]
      left; left; right
      exact rowSpan_mem_left (by omega)
  · intro k hk
    constructor
    · simp only [sapWrites1, List.mem_append]
      left; right
      exact dataWrites_mem hk (by omega)
    · simp only [sapWrites2, List.mem_append]
      left; right
      exact dataWrites_mem hk (by omega)
  · intro hn
    constructor
    · simp only [sapWrites1, List.mem_append]
      right
      rw [if_pos hn]
      simp only [List.mem_append]
      left; right
      exact List.mem_singleton.mpr rfl
    · simp only [sapWrites2, List.mem_append]
      right
      rw [if_pos hn]
      simp only [List.mem_append]
      left; right
      exact List.mem_singleton.mpr rfl
  · intro hn
    constructor
    · simp only [sapWrites1, List.mem_append]
      right
      rw [if_pos hn]
      simp only [List.mem_append]
      right
      exact rowSpan_mem_left (by omega)
    · simp only [sapWrites2, List.mem_append]
      right
      rw [if_pos hn]
      simp only [List.mem_append]
      right
      exact rowSpan_mem_left (by omega)
  · intro hn
    subst hn
    constructor
    · simp only [sapWrites1, List.mem_append]
      right
      rw [if_neg (by omega)]
      exact rowSpan_mem_left (by omega)
    · simp only [sapWrites2, List.mem_append]
      right
      rw [if_neg (by omega)]
      exact rowSpan_mem_left (by omega)
  · intro hs
    simp only [detWrites2, List.mem_append]
    left; left; left; right
    unfold setSubtitleWrites
    rw [if_neg hs]
    exact rowSpan_mem_left hcols

theorem C10_sap_subtitle_frame_witness :
    1 ≤ 15 ∧
    (∀ w ∈ sapWrites2 (sl "SAP") 3, w.1 ≠ SUBTITLE_ROW_INDEX) ∧
    (SUBTITLE_ROW_INDEX, 1) ∈ detWrites2 (sl "SAP") (sl "sub") 15 3 :=
  ⟨by decide,
   (C10_sap_subtitle_frame (sl "SAP") (sl "sub") 15 3 (by decide)).2.1,
   (C10_sap_subtitle_frame (sl "SAP") (sl "sub") 15 3 (by decide)).2.2.2.2.2.2.2.2
     (by decide)⟩
